import Mathlib

/-!
Verification of the ArgoDSM coherence engine against its specification.

This file gives a shallow embedding, in Lean 4, of the parts of the ArgoDSM
source relevant to the checked claims:

* `src/env/env.cpp` — environment variable handling,
* `src/backend/mpi/mpi.cpp` — MPI datatype selection for atomic operations,
* `src/backend/mpi/swdsm.cpp` — initialization sizes (`argo_initialize`,
  `align_forwards`), the diff write-back (`storepageDIFF`), the
  self-invalidation pass (`self_invalidation`) and the signal handler,
* `src/backend/mpi/write_buffer.hpp` — the write buffer,
* `src/data_distribution/*.hpp` — the data distribution policies,
* `src/synchronization/global_tas_lock.hpp` — the global test-and-set lock.

Machine integers (`std::size_t`, `unsigned long`) are modelled as `Nat`;
the only places where wrap-around or sentinel values matter (the TAS lock
sentinels) use explicit `2 ^ 64 - 1` style constants.  C++ exceptions are
modelled with `Except`; calls to `exit(EXIT_FAILURE)` inside the
distribution guards likewise become `Except.error` values (the distinction
process-abort vs. exception does not matter for any claim below, and is
noted at each definition).
-/

namespace ArgoDSM

/-! ## Environment variable handling (`src/env/env.cpp`) -/

/-- Default for `ARGO_MEMORY_SIZE` (from `env.cpp`): 8 GiB. -/
def default_memory_size : Nat := 8 * 2 ^ 30

/-- Default for `ARGO_CACHE_SIZE` (from `env.cpp`): 1 GiB. -/
def default_cache_size : Nat := 2 ^ 30

/-- Default for `ARGO_WRITE_BUFFER_SIZE` (from `env.cpp`): 512 cache blocks. -/
def default_write_buffer_size : Nat := 512

/-- Default for `ARGO_WRITE_BUFFER_WRITE_BACK_SIZE` (from `env.cpp`): 32. -/
def default_write_buffer_write_back_size : Nat := 32

/-- Default for `ARGO_ALLOCATION_POLICY` (from `env.cpp`): 0 (naive). -/
def default_allocation_policy : Nat := 0

/-- Default for `ARGO_ALLOCATION_BLOCK_SIZE` (from `env.cpp`): 16 pages. -/
def default_allocation_block_size : Nat := 2 ^ 4

/-- Error message used by `assert_initialized` in `env.cpp`. -/
def msg_uninitialized : String :=
  "argo::env::init() must be called before accessing environment values"

/-- Errors surfaced by the embedded code.  `logic_error` corresponds to
`std::logic_error`, `invalid_argument` to `std::invalid_argument`; both
propagate to the calling API in the source rather than aborting. -/
inductive cxx_error : Type
  | logic_error (msg : String)
  | invalid_argument (msg : String)
  deriving DecidableEq, Repr

/-- The seven cached environment values of `env.cpp` after parsing. -/
structure env_values : Type where
  memory_size : Nat
  cache_size : Nat
  write_buffer_size : Nat
  write_buffer_write_back_size : Nat
  allocation_policy : Nat
  allocation_block_size : Nat
  print_statistics : Nat
  deriving DecidableEq, Repr

/-- The file-local state of `env.cpp`: the `is_initialized` flag plus the
seven cached values. -/
structure env_state : Type where
  is_initialized : Bool
  values : env_values
  deriving DecidableEq, Repr

/-- The value component of `parse_env` from `env.cpp`: the parsed
environment variable if it is set, the fallback otherwise.  (The parse
itself — `std::stoul` and its exceptions — is outside every claim, so an
environment variable is modelled as an optional number.) -/
def parse_env (env : Option Nat) (fallback : Nat) : Nat :=
  env.getD fallback

/-- The state of `env.cpp` before `argo::env::init()` has run: the flag is
false (`is_initialized = false` in the source); the seven value variables
are default-initialized and carry no meaning yet. -/
def env_state_uninit (vs : env_values) : env_state :=
  { is_initialized := false, values := vs }

/-- Embedding of `argo::env::init()` from `env.cpp`: parse the seven
variables (with their defaults), clamp the write-back size to the write
buffer size, and set the initialized flag. -/
def env_init (m c wb wbwb ap abs ps : Option Nat) : env_state :=
  let value_memory_size := parse_env m default_memory_size
  let value_cache_size := parse_env c default_cache_size
  let value_write_buffer_size := parse_env wb default_write_buffer_size
  let wbwb_parsed := parse_env wbwb default_write_buffer_write_back_size
  let value_write_buffer_write_back_size :=
    if wbwb_parsed > value_write_buffer_size then value_write_buffer_size
    else wbwb_parsed
  let value_allocation_policy := parse_env ap default_allocation_policy
  let value_allocation_block_size := parse_env abs default_allocation_block_size
  let value_print_statistics := parse_env ps 0
  { is_initialized := true
    values :=
      { memory_size := value_memory_size
        cache_size := value_cache_size
        write_buffer_size := value_write_buffer_size
        write_buffer_write_back_size := value_write_buffer_write_back_size
        allocation_policy := value_allocation_policy
        allocation_block_size := value_allocation_block_size
        print_statistics := value_print_statistics } }

/-- Embedding of `assert_initialized` from `env.cpp`. -/
def assert_initialized (st : env_state) : Except cxx_error Unit :=
  if st.is_initialized then Except.ok () else
    Except.error (cxx_error.logic_error msg_uninitialized)

/-- Embedding of `argo::env::memory_size()`. -/
def env_memory_size (st : env_state) : Except cxx_error Nat := do
  _ ← assert_initialized st
  return st.values.memory_size

/-- Embedding of `argo::env::cache_size()`. -/
def env_cache_size (st : env_state) : Except cxx_error Nat := do
  _ ← assert_initialized st
  return st.values.cache_size

/-- Embedding of `argo::env::write_buffer_size()`. -/
def env_write_buffer_size (st : env_state) : Except cxx_error Nat := do
  _ ← assert_initialized st
  return st.values.write_buffer_size

/-- Embedding of `argo::env::write_buffer_write_back_size()`. -/
def env_write_buffer_write_back_size (st : env_state) : Except cxx_error Nat := do
  _ ← assert_initialized st
  return st.values.write_buffer_write_back_size

/-- Embedding of `argo::env::allocation_policy()`. -/
def env_allocation_policy (st : env_state) : Except cxx_error Nat := do
  _ ← assert_initialized st
  return st.values.allocation_policy

/-- Embedding of `argo::env::allocation_block_size()`. -/
def env_allocation_block_size (st : env_state) : Except cxx_error Nat := do
  _ ← assert_initialized st
  return st.values.allocation_block_size

/-- Embedding of `argo::env::print_statistics()`. -/
def env_print_statistics (st : env_state) : Except cxx_error Nat := do
  _ ← assert_initialized st
  return st.values.print_statistics

/-! ## MPI datatype selection (`src/backend/mpi/mpi.cpp`) -/

/-- The MPI datatypes returned by the three `fitting_mpi_*` helpers. -/
inductive mpi_datatype : Type
  | mpi_int8 | mpi_int16 | mpi_int32 | mpi_int64
  | mpi_uint8 | mpi_uint16 | mpi_uint32 | mpi_uint64
  | mpi_float | mpi_double | mpi_long_double
  deriving DecidableEq, Repr

/-- Embedding of `fitting_mpi_int` from `mpi.cpp`: select an MPI integer
type of exactly the requested size, or throw `std::invalid_argument`. -/
def fitting_mpi_int (size : Nat) : Except cxx_error mpi_datatype :=
  if size = 1 then Except.ok mpi_datatype.mpi_int8
  else if size = 2 then Except.ok mpi_datatype.mpi_int16
  else if size = 4 then Except.ok mpi_datatype.mpi_int32
  else if size = 8 then Except.ok mpi_datatype.mpi_int64
  else Except.error (cxx_error.invalid_argument
    "Invalid size (must be either 1, 2, 4 or 8)")

/-- Embedding of `fitting_mpi_uint` from `mpi.cpp`. -/
def fitting_mpi_uint (size : Nat) : Except cxx_error mpi_datatype :=
  if size = 1 then Except.ok mpi_datatype.mpi_uint8
  else if size = 2 then Except.ok mpi_datatype.mpi_uint16
  else if size = 4 then Except.ok mpi_datatype.mpi_uint32
  else if size = 8 then Except.ok mpi_datatype.mpi_uint64
  else Except.error (cxx_error.invalid_argument
    "Invalid size (must be either 1, 2, 4 or 8)")

/-- Embedding of `fitting_mpi_float` from `mpi.cpp`: sizes 4, 8 and 16
select single, double and extended precision; anything else throws
`std::invalid_argument`. -/
def fitting_mpi_float (size : Nat) : Except cxx_error mpi_datatype :=
  if size = 4 then Except.ok mpi_datatype.mpi_float
  else if size = 8 then Except.ok mpi_datatype.mpi_double
  else if size = 16 then Except.ok mpi_datatype.mpi_long_double
  else Except.error (cxx_error.invalid_argument
    "Invalid size (must be power either 4, 8 or 16)")

/-! ## Initialization sizes (`argo_initialize` in `src/backend/mpi/swdsm.cpp`) -/

/-- Embedding of `align_forwards` from `swdsm.cpp`: align an offset to the
beginning of its subsequent `size` block unless already aligned (0 stays 0). -/
def align_forwards (offset size : Nat) : Nat :=
  if offset = 0 then offset else (1 + (offset - 1) / size) * size

/-- The global memory size computed by `argo_initialize(argo_size, ...)` in
`swdsm.cpp` (the value stored into `size_of_all`): the requested size is
first raised to at least `pagesize * numtasks` and then aligned forwards to
`pagesize * CACHELINE * numtasks`. -/
def argo_init_size_of_all (argo_size pagesize cacheline numtasks : Nat) : Nat :=
  align_forwards (max argo_size (pagesize * numtasks))
    (pagesize * cacheline * numtasks)

/-- The cache size in pages computed by `argo_initialize(argo_size,
cache_size)` in `swdsm.cpp` (the value stored into `cachesize`): the
request is clamped to at most the standardised `argo_size`, aligned
forwards to `pagesize * CACHELINE`, raised to at least
`pagesize * CACHELINE * 2`, and finally divided by `pagesize`. -/
def argo_init_cachesize (argo_size cache_size pagesize cacheline numtasks : Nat) : Nat :=
  let asz := argo_init_size_of_all argo_size pagesize cacheline numtasks
  let c1 := min asz cache_size
  let c2 := align_forwards c1 (pagesize * cacheline)
  let c3 := max c2 (pagesize * cacheline * 2)
  c3 / pagesize

/-- Claimed global memory size, written from the specification words: the
requested size rounded up to a multiple of `P * K * N`. -/
def claimed_global_size (argo_size pagesize cacheline numtasks : Nat) : Nat :=
  ((argo_size + pagesize * cacheline * numtasks - 1) /
    (pagesize * cacheline * numtasks)) * (pagesize * cacheline * numtasks)

/-- Claimed cache size in pages, written from the specification words: the
requested cache size rounded up to a multiple of `P * K` and floored to
(never smaller than) `2 * P * K` bytes, expressed in pages. -/
def claimed_cachesize (cache_size pagesize cacheline : Nat) : Nat :=
  (max (((cache_size + pagesize * cacheline - 1) / (pagesize * cacheline)) *
    (pagesize * cacheline)) (2 * (pagesize * cacheline))) / pagesize

/-! ## Global TAS lock (`src/synchronization/global_tas_lock.hpp`) -/

/-- Sentinel `locked` of `global_tas_lock`: `std::size_t(-1)` on a 64-bit
machine. -/
def tas_locked : Nat := 2 ^ 64 - 1

/-- Sentinel `init` of `global_tas_lock`: `std::size_t(-2)` on a 64-bit
machine. -/
def tas_init : Nat := 2 ^ 64 - 2

/-- The global lock word (`lastuser` in `global_tas_lock.hpp`). -/
structure tas_state : Type where
  word : Nat
  deriving DecidableEq, Repr

/-- Synchronization actions performed by the lock operations, in program
order.  `local_acquire_fence` is `std::atomic_thread_fence(acquire)`,
`global_acquire` is `backend::acquire()`, `global_release` is
`backend::release()`, and `word_store v` is the atomic store of `v` into
the lock word. -/
inductive sync_event : Type
  | local_acquire_fence
  | global_acquire
  | global_release
  | word_store (v : Nat)
  deriving DecidableEq, Repr

/-- Embedding of `global_tas_lock::global_tas_lock` (the constructor
stores the `init` sentinel). -/
def global_tas_new : tas_state := { word := tas_init }

/-- Embedding of `global_tas_lock::try_lock`: atomically exchange the lock
word with `locked`; on success perform either only a node-local acquire
fence (previous owner was this node, or the lock was never taken) or a
full global acquire.  Returns the success flag, the new lock word, and the
list of synchronization actions performed, in order. -/
def global_tas_try_lock (self : Nat) (st : tas_state) :
    Bool × tas_state × List sync_event :=
  let old := st.word
  let exchanged : tas_state := { word := tas_locked }
  if old ≠ tas_locked then
    if old = self ∨ old = tas_init then
      (true, exchanged, [sync_event.local_acquire_fence])
    else
      (true, exchanged, [sync_event.global_acquire])
  else
    (false, exchanged, [])

/-- Embedding of `global_tas_lock::unlock`: a global release followed by
an atomic store of the caller's node id into the lock word. -/
def global_tas_unlock (self : Nat) (_st : tas_state) :
    tas_state × List sync_event :=
  ({ word := self }, [sync_event.global_release, sync_event.word_store self])

/-! ## Data distribution policies (`src/data_distribution/`) -/

/-- Page granularity of the distribution policies
(`base_distribution.hpp`: `granularity = 0x1000`). -/
def granularity : Nat := 4096

/-- Failures of the distribution computations.  `home_out_of_range` and
`offset_out_of_range` model the guards in `homenode` / `local_offset`
(`throw std::system_error` with `msg_fetch_homenode_fail` resp.
`msg_fetch_offset_fail`; `prime_mapp_distribution` calls
`exit(EXIT_FAILURE)` instead, modelled by the same error values since no
claim distinguishes throw from abort).  `scan_fuel_exhausted` is a model
artifact of the bounded backward scan in `prime_mapp::local_offset`: the
C++ loop would underflow `addr` past zero in that case. -/
inductive dist_error : Type
  | home_out_of_range
  | offset_out_of_range
  | scan_fuel_exhausted
  deriving DecidableEq, Repr

/-- Static configuration of `base_distribution` as installed by
`set_memory_space(n, start, size)`, plus `env::allocation_block_size()`
used by the cyclic family.  Addresses below are byte offsets from
`start_address`. -/
structure dist_config : Type where
  nodes : Nat
  total_size : Nat
  allocation_block_size : Nat
  deriving DecidableEq, Repr

/-- One node's share of the memory space: `size_per_node = size / n` in
`base_distribution::set_memory_space`. -/
def dist_config.size_per_node (cfg : dist_config) : Nat :=
  cfg.total_size / cfg.nodes

/-- Block size of the cyclic family:
`pageblock = env::allocation_block_size() * granularity`. -/
def dist_config.pageblock (cfg : dist_config) : Nat :=
  cfg.allocation_block_size * granularity

/-- The `homenode >= nodes` guard common to every policy's `homenode`:
the source throws (`msg_fetch_homenode_fail`) or exits instead of
returning an out-of-range home. -/
def home_guard (cfg : dist_config) (h : Nat) : Except dist_error Nat :=
  if h ≥ cfg.nodes then Except.error dist_error.home_out_of_range
  else Except.ok h

/-- The `offset >= size_per_node` guard common to every policy's
`local_offset`. -/
def offset_guard (cfg : dist_config) (o : Nat) : Except dist_error Nat :=
  if o ≥ cfg.size_per_node then Except.error dist_error.offset_out_of_range
  else Except.ok o

/-- Embedding of `naive_distribution::homenode`. -/
def naive_homenode (cfg : dist_config) (a : Nat) : Except dist_error Nat :=
  home_guard cfg (a / cfg.size_per_node)

/-- Embedding of `naive_distribution::local_offset` (which re-invokes
`homenode`, propagating its failure). -/
def naive_local_offset (cfg : dist_config) (a : Nat) : Except dist_error Nat :=
  match naive_homenode cfg a with
  | Except.error e => Except.error e
  | Except.ok h => offset_guard cfg (a - h * cfg.size_per_node)

/-- Embedding of `cyclic_distribution::homenode`. -/
def cyclic_homenode (cfg : dist_config) (a : Nat) : Except dist_error Nat :=
  let addr := a / granularity * granularity
  let pagenum := addr / cfg.pageblock
  home_guard cfg (pagenum % cfg.nodes)

/-- Embedding of `cyclic_distribution::local_offset`. -/
def cyclic_local_offset (cfg : dist_config) (a : Nat) : Except dist_error Nat :=
  let drift := a % granularity
  let addr := a / granularity * granularity
  let pagenum := addr / cfg.pageblock
  offset_guard cfg
    (pagenum / cfg.nodes * cfg.pageblock + addr % cfg.pageblock + drift)

/-- Embedding of `skew_mapp_distribution::homenode`. -/
def skew_mapp_homenode (cfg : dist_config) (a : Nat) : Except dist_error Nat :=
  let addr := a / granularity * granularity
  let pagenum := addr / cfg.pageblock
  home_guard cfg ((pagenum + pagenum / cfg.nodes + 1) % cfg.nodes)

/-- Embedding of `skew_mapp_distribution::local_offset` (identical to the
cyclic offset computation). -/
def skew_mapp_local_offset (cfg : dist_config) (a : Nat) : Except dist_error Nat :=
  let drift := a % granularity
  let addr := a / granularity * granularity
  let pagenum := addr / cfg.pageblock
  offset_guard cfg
    (pagenum / cfg.nodes * cfg.pageblock + addr % cfg.pageblock + drift)

/-- Embedding of `prime_mapp_distribution::homenode` with
`prime = (3 * nodes) / 2`. -/
def prime_mapp_homenode (cfg : dist_config) (a : Nat) : Except dist_error Nat :=
  let prime := 3 * cfg.nodes / 2
  let addr := a / granularity * granularity
  let pagenum := addr / cfg.pageblock
  home_guard cfg
    (if pagenum % prime ≥ cfg.nodes then
      (pagenum / prime * (prime - cfg.nodes) + (pagenum % prime - cfg.nodes)) %
        cfg.nodes
    else pagenum % prime)

/-- The backward scan loop of `prime_mapp_distribution::local_offset`:
starting from `addr` (already decremented by one pageblock), walk
downward one pageblock at a time, counting pages homed at `realhome`,
until a page is reached that lies in the dense region or the skip region
and is homed at `realhome`; then produce the final offset.  The C++ loop
has no explicit bound; the `fuel` argument bounds the recursion by the
number of remaining pageblocks (enough for every terminating source
execution, since `addr` decreases by one pageblock per iteration). -/
def prime_mapp_scan (cfg : dist_config) (realhome drift : Nat) :
    Nat → Nat → Nat → Except dist_error Nat
  | 0, _, _ => Except.error dist_error.scan_fuel_exhausted
  | fuel + 1, addr, homecounter =>
    let prime := 3 * cfg.nodes / 2
    let pagenum := addr / cfg.pageblock
    match prime_mapp_homenode cfg addr with
    | Except.error e => Except.error e
    | Except.ok currhome =>
      let homecounter := homecounter + (if currhome = realhome then 1 else 0)
      if (addr ≤ cfg.nodes * cfg.pageblock ∧ currhome = realhome) ∨
          (pagenum % prime ≥ cfg.nodes ∧ currhome = realhome) then
        Except.ok (pagenum / cfg.nodes * cfg.pageblock + addr % cfg.pageblock +
          homecounter * cfg.pageblock + drift)
      else
        prime_mapp_scan cfg realhome drift fuel (addr - cfg.pageblock) homecounter

/-- The offset value computed by `prime_mapp_distribution::local_offset`
before its final range guard: the dense/skip regions use the cyclic
formula directly, other pages run the backward scan. -/
def prime_mapp_pre (cfg : dist_config) (a : Nat) : Except dist_error Nat :=
  let prime := 3 * cfg.nodes / 2
  let drift := a % granularity
  let addr := a / granularity * granularity
  let pagenum := addr / cfg.pageblock
  if addr ≤ cfg.nodes * cfg.pageblock ∨ pagenum % prime ≥ cfg.nodes then
    Except.ok (pagenum / cfg.nodes * cfg.pageblock + addr % cfg.pageblock + drift)
  else
    match prime_mapp_homenode cfg a with
    | Except.error e => Except.error e
    | Except.ok realhome =>
      prime_mapp_scan cfg realhome drift (pagenum + 1) (addr - cfg.pageblock) 0

/-- Embedding of `prime_mapp_distribution::local_offset`: the computed
offset guarded by the `offset >= size_per_node` check. -/
def prime_mapp_local_offset (cfg : dist_config) (a : Nat) : Except dist_error Nat :=
  match prime_mapp_pre cfg a with
  | Except.error e => Except.error e
  | Except.ok offset => offset_guard cfg offset

/-- Embedding of `first_touch_distribution::homenode`: the home is the
value recorded in the node's local owners directory at index
`3 * (addr / granularity)`, published by `update_dirs`; the concurrent
CAS-claim protocol that fills the directory is not modelled — the
directory content is a parameter.  The guard is the same
`homenode >= nodes` check as in the source. -/
def first_touch_homenode (cfg : dist_config) (owners_dir : Nat → Nat) (a : Nat) :
    Except dist_error Nat :=
  let addr := a / granularity * granularity
  let idx := 3 * (addr / granularity)
  home_guard cfg (owners_dir idx)

/-- Embedding of `first_touch_distribution::local_offset`: the published
backing offset (directory index `3 * (addr / granularity) + 1`) plus the
in-page drift, with the source's range guard. -/
def first_touch_local_offset (cfg : dist_config) (owners_dir : Nat → Nat) (a : Nat) :
    Except dist_error Nat :=
  let drift := a % granularity
  let addr := a / granularity * granularity
  let idx := 3 * (addr / granularity)
  offset_guard cfg (owners_dir (idx + 1) + drift)

/-! ## Diff write-back (`storepageDIFF` in `src/backend/mpi/swdsm.cpp`) -/

/-- One emitted `MPI_Put` of `storepageDIFF`: target offset in the home
node's data window and length in bytes (the transferred bytes are
`real[target - offset ..]`, see `storepageDIFF_apply`). -/
structure put_op : Type where
  target : Nat
  len : Nat
  deriving DecidableEq, Repr

/-- The byte-comparison loop of `storepageDIFF` with `drf_unit = 1`
(`sizeof(char)`): position `i` walks the page; `cnt` is the length of the
current run of differing bytes ending just before `i`; when a byte equal
to the twin is found (or the page ends) a pending run is emitted as one
put at window offset `offset + (i - cnt)`.  `steps` counts the remaining
loop iterations (`pagesize - i` at the top-level call). -/
def diff_loop (real copy : Nat → Nat) (offset : Nat) :
    Nat → Nat → Nat → List put_op
  | 0, i, cnt =>
    if 0 < cnt then [{ target := offset + (i - cnt), len := cnt }] else []
  | steps + 1, i, cnt =>
    if real i ≠ copy i then diff_loop real copy offset steps (i + 1) (cnt + 1)
    else if 0 < cnt then
      { target := offset + (i - cnt), len := cnt } ::
        diff_loop real copy offset steps (i + 1) 0
    else diff_loop real copy offset steps (i + 1) 0

/-- The puts emitted by `storepageDIFF` for a page of `pagesize` bytes
whose live contents are `real` and whose twin is `copy`, written to the
home node's data window starting at `offset`. -/
def storepageDIFF_puts (real copy : Nat → Nat) (pagesize offset : Nat) :
    List put_op :=
  diff_loop real copy offset pagesize 0 0

/-- A maximal contiguous run of differing bytes `[s, s + l)` within a
page of `n` bytes: nonempty, inside the page, all bytes differ from the
twin, and the bytes immediately before and after the run (when they
exist) agree with the twin. -/
def is_maximal_run (real copy : Nat → Nat) (n s l : Nat) : Prop :=
  0 < l ∧ s + l ≤ n ∧
  (∀ j, s ≤ j → j < s + l → real j ≠ copy j) ∧
  (s = 0 ∨ real (s - 1) = copy (s - 1)) ∧
  (s + l = n ∨ real (s + l) = copy (s + l))

instance (real copy : Nat → Nat) (n s l : Nat) :
    Decidable (is_maximal_run real copy n s l) :=
  decidable_of_iff
    (0 < l ∧ s + l ≤ n ∧ (∀ j < s + l, s ≤ j → real j ≠ copy j) ∧
      (s = 0 ∨ real (s - 1) = copy (s - 1)) ∧
      (s + l = n ∨ real (s + l) = copy (s + l)))
    (by
      unfold is_maximal_run
      constructor
      · rintro ⟨h1, h2, h3, h4, h5⟩
        exact ⟨h1, h2, fun j hj1 hj2 => h3 j hj2 hj1, h4, h5⟩
      · rintro ⟨h1, h2, h3, h4, h5⟩
        exact ⟨h1, h2, fun j hj1 hj2 => h3 j hj2 hj1, h4, h5⟩)

/-! ## Write buffer (`src/backend/mpi/write_buffer.hpp`), buffer content -/

/-- The buffer content after `sort_first`: the first `_write_back_size`
elements sorted ascending, the rest unchanged. -/
def wb_sort_first (wbsize : Nat) (buf : List Nat) : List Nat :=
  List.insertionSort (· ≤ ·) (buf.take wbsize) ++ buf.drop wbsize

/-- The buffer content after `flush_partial`: sort the first
`_write_back_size` elements, then pop each of them from the front (the
write-back of the popped pages acts on the cache, not on the buffer; see
`wb_add_apply` for the full state effect).  The source asserts
`size() >= _write_back_size` before sorting. -/
def wb_flush_first (wbsize : Nat) (buf : List Nat) : List Nat :=
  (wb_sort_first wbsize buf).drop wbsize

/-- The buffer content after `write_buffer::add(val)`: a no-op when `val`
is already present; otherwise, when the buffer is full
(`size() >= _max_size`), first flush the first `_write_back_size`
elements, then enqueue `val` at the back. -/
def wb_add (max_size wbsize : Nat) (buf : List Nat) (v : Nat) : List Nat :=
  if v ∈ buf then buf
  else
    let buf2 := if buf.length ≥ max_size then wb_flush_first wbsize buf else buf
    buf2 ++ [v]

/-- The buffer content after `write_buffer::erase(val)`: remove the first
occurrence found by `std::find`, if any. -/
def wb_erase (buf : List Nat) (v : Nat) : List Nat := buf.erase v

/-- A write-buffer operation of a trace: `add`, `erase`, or a full
`flush` (which sorts, then pops every element, leaving the buffer
empty). -/
inductive wb_op : Type
  | add (v : Nat)
  | erase (v : Nat)
  | flush
  deriving DecidableEq, Repr

/-- One step of a write-buffer trace acting on the buffer content. -/
def wb_step (max_size wbsize : Nat) (buf : List Nat) : wb_op → List Nat
  | wb_op.add v => wb_add max_size wbsize buf v
  | wb_op.erase v => wb_erase buf v
  | wb_op.flush => []

/-- The buffer content reached by a trace of operations starting from the
empty buffer of a freshly constructed `write_buffer`. -/
def wb_run (max_size wbsize : Nat) (ops : List wb_op) : List Nat :=
  ops.foldl (wb_step max_size wbsize) []

/-! ## Coherence engine state (`src/backend/mpi/swdsm.cpp`) -/

/-- Cache-line state constant `INVALID` from `swdsm.h`. -/
def INVALID : Nat := 0
/-- Cache-line state constant `VALID` from `swdsm.h`. -/
def VALID : Nat := 1
/-- Dirty-flag constant `CLEAN` from `swdsm.h`. -/
def CLEAN : Nat := 2
/-- Dirty-flag constant `DIRTY` from `swdsm.h`. -/
def DIRTY : Nat := 3

/-- The `control_data` struct of `swdsm.h` (one per cache slot): logical
line tag, state, and dirty flag. -/
structure control_data : Type where
  tag : Nat
  state : Nat
  dirty : Nat
  deriving DecidableEq, Repr

/-- Page protection installed by `mprotect` / `vm::map_memory`. -/
inductive mem_prot : Type
  | prot_none
  | prot_read
  | prot_read_write
  deriving DecidableEq, Repr

/-- Static configuration of the MPI backend after `argo_initialize`:
`pagesize` (4096 in the source), `CACHELINE` (compile-time, 1 by
default), `cachesize` in pages, `classificationSize` (2 * cachesize),
`numtasks`, `workrank`, `size_of_all`, `size_of_chunk = size_of_all /
numtasks`, and the write-buffer sizes in cache blocks. -/
structure node_config : Type where
  pagesize : Nat
  cacheline : Nat
  cachesize : Nat
  classificationSize : Nat
  numtasks : Nat
  workrank : Nat
  size_of_all : Nat
  size_of_chunk : Nat
  wb_max_size : Nat
  wb_write_back_size : Nat
  deriving DecidableEq, Repr

/-- Pointwise update of a function modelling a mutable array. -/
def fupd {α : Type} (f : Nat → α) (i : Nat) (v : α) : Nat → α :=
  fun j => if j = i then v else f j

/-- Pointwise update of a two-argument function modelling a per-node
array (an MPI window of another node). -/
def fupd2 (f : Nat → Nat → Nat) (a b v : Nat) : Nat → Nat → Nat :=
  fun x y => if x = a ∧ y = b then v else f x y

/-- Mutable state of one node's coherence engine, as far as the claims
require: the cache control array, the touched bitmap, this node's sharer
directory words (`globalSharers`), the other nodes' sharer windows as
seen through one-sided MPI operations, the write buffer content, the
twin pages (`pagecopy`, flat byte array), the live bytes of the global
address space as mapped on this node (`realData`, indexed by byte offset
from `startAddr`), the data windows of the home nodes (`remoteData`,
indexed by node and window offset), and the page protections (`prot`,
indexed by page number, i.e. byte offset / pagesize).  The statistics
counters, timing, and the `barwindowsused` window-locking flags of the
source have no bearing on any claim and are not modelled. -/
structure node_view : Type where
  cacheControl : Nat → control_data
  touchedcache : Nat → Nat
  globalSharers : Nat → Nat
  remoteSharers : Nat → Nat → Nat
  wb : List Nat
  pagecopy : Nat → Nat
  realData : Nat → Nat
  remoteData : Nat → Nat → Nat
  prot : Nat → mem_prot

/-- Embedding of `get_classification_index` from `swdsm.cpp`. -/
def get_classification_index (cfg : node_config) (addr : Nat) : Nat :=
  2 * (addr / (cfg.pagesize * cfg.cacheline)) % cfg.classificationSize

/-- Embedding of `getHomenode` from `swdsm.cpp`.  The source exits the
process when the result would be `>= numtasks`; the claims using this
helper only evaluate it in range, so the guard is recorded here as a
comment rather than an error value. -/
def getHomenode (cfg : node_config) (addr : Nat) : Nat :=
  addr / cfg.size_of_chunk

/-- Embedding of `getOffset` from `swdsm.cpp` (same remark about the
`offset >= size_of_chunk` exit guard as for `getHomenode`). -/
def getOffset (cfg : node_config) (addr : Nat) : Nat :=
  addr - getHomenode cfg addr * cfg.size_of_chunk

/-- Embedding of `getCacheIndex` from `swdsm.cpp`. -/
def getCacheIndex (cfg : node_config) (addr : Nat) : Nat :=
  addr / cfg.pagesize % cfg.cachesize

/-- Embedding of `isPowerOf2` from `swdsm.cpp` (true also for zero, as in
the source, where `0 & (0 - 1) == 0` by unsigned wrap-around; in `Nat`,
`0 - 1 = 0` gives the same outcome). -/
def isPowerOf2 (x : Nat) : Nat :=
  if Nat.land x (x - 1) = 0 then 1 else 0

/-- Effect of `mprotect(startAddr + addrByte, lenBytes, p)` on the
protection map: every page whose number lies in
`[addrByte / pagesize, (addrByte + lenBytes) / pagesize)` gets `p` (all
source call sites pass page-aligned arguments). -/
def set_prot (cfg : node_config) (pr : Nat → mem_prot)
    (addrByte lenBytes : Nat) (p : mem_prot) : Nat → mem_prot :=
  fun pg =>
    if addrByte / cfg.pagesize ≤ pg ∧ pg < (addrByte + lenBytes) / cfg.pagesize
    then p else pr pg

/-- State effect of one `storepageDIFF(index, addr)` call: diff the live
page at byte offset `addr` against the twin page `index`, and apply the
emitted puts to the home node's data window (`MPI_Put` of the differing
byte runs at `offset + run_start`). -/
def storepageDIFF_apply (cfg : node_config) (st : node_view)
    (index addr : Nat) : node_view :=
  let homenode := getHomenode cfg addr
  let offset := getOffset cfg addr
  let real := fun j => st.realData (addr + j)
  let copy := fun j => st.pagecopy (index * cfg.pagesize + j)
  let puts := storepageDIFF_puts real copy cfg.pagesize offset
  let newRemote := fun nd o =>
    if nd = homenode ∧ (∃ p ∈ puts, p.target ≤ o ∧ o < p.target + p.len)
    then st.realData (addr + (o - offset))
    else st.remoteData nd o
  { st with remoteData := newRemote }

/-- State effect of writing back one popped write-buffer element, common
to `write_buffer::flush` and `write_buffer::flush_partial`: re-protect
the line's pages read-only, mark the slot clean, and `storepageDIFF`
each page of the line. -/
def flush_one (cfg : node_config) (st : node_view) (cache_index : Nat) :
    node_view :=
  let page_address := (st.cacheControl cache_index).tag
  let st1 := { st with
    prot := set_prot cfg st.prot page_address
      (cfg.pagesize * cfg.cacheline) mem_prot.prot_read
    cacheControl := fupd st.cacheControl cache_index
      { st.cacheControl cache_index with dirty := CLEAN } }
  (List.range cfg.cacheline).foldl
    (fun s i => storepageDIFF_apply cfg s (cache_index + i)
      (cfg.pagesize * i + page_address)) st1

/-- State effect of `write_buffer::flush`: sort the whole buffer, write
back every element in sorted order, and leave the buffer empty. -/
def wb_flush_apply (cfg : node_config) (st : node_view) : node_view :=
  let sorted := List.insertionSort (· ≤ ·) st.wb
  let st1 := sorted.foldl (flush_one cfg) st
  { st1 with wb := [] }

/-- State effect of `write_buffer::add(val)`: no-op when present;
otherwise, when full, `flush_partial` (sort the first `_write_back_size`
elements, write each back, pop it), then enqueue `val`. -/
def wb_add_apply (cfg : node_config) (st : node_view) (v : Nat) : node_view :=
  if v ∈ st.wb then st
  else
    let st2 :=
      if st.wb.length ≥ cfg.wb_max_size then
        let sorted := wb_sort_first cfg.wb_write_back_size st.wb
        let victims := sorted.take cfg.wb_write_back_size
        let st1 := victims.foldl (flush_one cfg) st
        { st1 with wb := sorted.drop cfg.wb_write_back_size }
      else st
    { st2 with wb := st2.wb ++ [v] }

/-- One iteration of the `self_invalidation` loop of `swdsm.cpp`, for
line-start slot `i`: untouched slots are skipped; the first touched dirty
slot triggers a full write-buffer flush; then the home directory pair for
the slot's line decides between keeping the line (the node is single
writer, or there is no writer and the node is a sharer — the source
re-sets `touchedcache[i] = 1`) and invalidating it (state `INVALID`,
dirty `CLEAN`, touched 0, protection `PROT_NONE`). -/
def self_inv_slot (cfg : node_config) (acc : node_view × Nat) (i : Nat) :
    node_view × Nat :=
  let st := acc.1
  let flushed := acc.2
  if st.touchedcache i ≠ 0 then
    let distrAddr := (st.cacheControl i).tag
    let lineAddr := distrAddr / (cfg.cacheline * cfg.pagesize) *
      (cfg.pagesize * cfg.cacheline)
    let classidx := get_classification_index cfg lineAddr
    let dirty := (st.cacheControl i).dirty
    let fl := if flushed = 0 ∧ dirty = DIRTY then (wb_flush_apply cfg st, 1)
      else (st, flushed)
    let st := fl.1
    let flushed := fl.2
    let id := 2 ^ cfg.workrank
    if st.globalSharers (classidx + 1) = id ∨
        (st.globalSharers (classidx + 1) = 0 ∧
          Nat.land (st.globalSharers classidx) id = id) then
      ({ st with touchedcache := fupd st.touchedcache i 1 }, flushed)
    else
      ({ st with
          cacheControl := fupd st.cacheControl i
            { st.cacheControl i with dirty := CLEAN, state := INVALID }
          touchedcache := fupd st.touchedcache i 0
          prot := set_prot cfg st.prot lineAddr
            (cfg.pagesize * cfg.cacheline) mem_prot.prot_none }, flushed)
  else acc

/-- Embedding of `self_invalidation` from `swdsm.cpp`: iterate the cache
slots in steps of `CACHELINE` (the loop `for(i = 0; i < cachesize;
i += CACHELINE)`), threading the one-shot `flushed` flag. -/
def self_invalidation (cfg : node_config) (st : node_view) : node_view :=
  let slots := (List.range ((cfg.cachesize + cfg.cacheline - 1) /
    cfg.cacheline)).map (· * cfg.cacheline)
  (slots.foldl (self_inv_slot cfg) (st, 0)).1

/-- Embedding of `align_backwards` from `swdsm.cpp`: align an offset to
the beginning of its size block. -/
def align_backwards (offset size : Nat) : Nat :=
  offset / size * size

/-- The `MPI_Accumulate` loop of the handler's write-upgrade path: OR
this node's bit into the writer word (`classidx + 1`) of every other node
currently recorded in `sharers`. -/
def bor_sharer_writers (cfg : node_config) (sharers classidx id : Nat)
    (f : Nat → Nat → Nat) : Nat → Nat → Nat :=
  fun nd w =>
    if nd ≠ cfg.workrank ∧ nd < cfg.numtasks ∧
        Nat.land (2 ^ nd) sharers ≠ 0 ∧ w = classidx + 1
    then Nat.lor (f nd w) id
    else f nd w

/-- The `memcpy(copy, aligned_access_ptr, CACHELINE * pagesize)` of the
handler's write-upgrade path: snapshot the live line into the twin pages
starting at `pagecopy + line * pagesize`. -/
def twin_copy (cfg : node_config) (pagecopy realData : Nat → Nat)
    (line aligned : Nat) : Nat → Nat :=
  fun o =>
    if line * cfg.pagesize ≤ o ∧
        o < line * cfg.pagesize + cfg.cacheline * cfg.pagesize
    then realData (aligned + (o - line * cfg.pagesize))
    else pagecopy o

/-- The cache-hit tail of the SIGSEGV `handler` of `swdsm.cpp` — the code
executed when the faulting address is not homed on this node (the
`homenode == getID()` branch has returned otherwise).  On a miss
(`state == INVALID`, or a tag mismatch with a non-null tag) the line is
loaded; the load (`load_cache_entry`, plus the optional `DUAL_LOAD`
prefetch) touches state outside this claim's branch and is passed in as
`loadFn` applied to the aligned address and `startIndex % cachesize`.  On
a hit of an already-dirty line the handler returns with no state change.
Otherwise the write upgrade runs: mark touched and dirty, register this
node in the writer directories (locally, at the home via
`MPI_Get_accumulate`, and at the remaining sharer or single-writer nodes
via `MPI_Accumulate`), snapshot the page into the twin, add the slot to
the write buffer, and re-map the line read/write. -/
def handler_dir_update (cfg : node_config) (st : node_view)
    (classidx homenode : Nat) : node_view :=
  let id := 2 ^ cfg.workrank
  let invid := Nat.xor (2 ^ 64 - 1) id
  let writers := st.globalSharers (classidx + 1)
  let _sharers := st.globalSharers classidx
  if writers ≠ id ∧ isPowerOf2 writers = 1 then
    let st := { st with
      globalSharers :=
        fupd st.globalSharers (classidx + 1)
          (Nat.lor (st.globalSharers (classidx + 1)) id) }
    let fetched_writers := st.remoteSharers homenode (classidx + 1)
    let fetched_sharers := st.remoteSharers homenode classidx
    let st := { st with
      remoteSharers := fupd2 st.remoteSharers homenode (classidx + 1)
        (Nat.lor (st.remoteSharers homenode (classidx + 1)) id) }
    let writers := Nat.lor fetched_writers id
    let sharers := fetched_sharers
    let st := { st with
      globalSharers :=
        fupd st.globalSharers classidx
          (Nat.lor (st.globalSharers classidx) sharers) }
    if writers ≠ id ∧ writers ≠ 0 ∧
        isPowerOf2 (Nat.land writers invid) = 1 then
      let owner := (((List.range cfg.numtasks).find?
        (fun n => 2 ^ n = Nat.land writers invid)).getD 0)
      { st with
        remoteSharers := fupd2 st.remoteSharers owner (classidx + 1)
          (Nat.lor (st.remoteSharers owner (classidx + 1)) id) }
    else if writers = id ∨ writers = 0 then
      { st with
        remoteSharers := bor_sharer_writers cfg sharers classidx id
          st.remoteSharers }
    else st
  else st

/-- The write-upgrade tail of the handler (executed on a clean hit):
mark the line touched and dirty, perform the directory escalation,
snapshot the line into the twin, add the slot to the write buffer, and
re-map the line read/write. -/
def handler_upgrade (cfg : node_config) (st : node_view)
    (aligned classidx startIndex line homenode : Nat) : node_view :=
  let st1 := { st with
    touchedcache := fupd st.touchedcache line 1
    cacheControl := fupd st.cacheControl line
      { st.cacheControl line with dirty := DIRTY } }
  let st2 := handler_dir_update cfg st1 classidx homenode
  let st3 := { st2 with
    pagecopy := twin_copy cfg st2.pagecopy st2.realData line aligned }
  let st4 := wb_add_apply cfg st3 startIndex
  { st4 with
    prot := set_prot cfg st4.prot aligned (cfg.pagesize * cfg.cacheline)
      mem_prot.prot_read_write }

def handler_remote (cfg : node_config)
    (loadFn : node_view → Nat → Nat → node_view)
    (st : node_view) (access_offset : Nat) : node_view :=
  let aligned := align_backwards access_offset (cfg.cacheline * cfg.pagesize)
  let classidx := get_classification_index cfg aligned
  let startIndex := getCacheIndex cfg aligned
  let homenode := getHomenode cfg aligned
  let state := (st.cacheControl startIndex).state
  let tag := (st.cacheControl startIndex).tag
  if state = INVALID ∨ (tag ≠ aligned ∧ tag ≠ cfg.size_of_all + 1) then
    loadFn st aligned (startIndex % cfg.cachesize)
  else
    let line := startIndex / cfg.cacheline * cfg.cacheline
    if (st.cacheControl line).dirty = DIRTY then st
    else handler_upgrade cfg st aligned classidx startIndex line homenode

/-! ## Invariants used to reason about `self_invalidation` -/

/-- Slot coherence (specification §3, cache-line invariants): the tag of
slot `j` is line-aligned and maps back to slot `j` under
`getCacheIndex`.  This holds for every resident line installed by the
handler and is assumed for write-buffer members and touched slots. -/
def slot_coherent (cfg : node_config) (st : node_view) (j : Nat) : Prop :=
  (cfg.pagesize * cfg.cacheline ∣ (st.cacheControl j).tag) ∧
  (st.cacheControl j).tag / cfg.pagesize % cfg.cachesize = j

/-- The keep condition of the self-invalidation pass for slot `s`,
evaluated on the directory pair of the slot's line: the node is the
single writer, or there is no writer and the node is a sharer.  (The
sharer words are never modified by the pass, so the condition on the
initial state equals the condition the code evaluates.) -/
def si_keep_cond (cfg : node_config) (st : node_view) (s : Nat) : Prop :=
  st.globalSharers (get_classification_index cfg
      ((st.cacheControl s).tag / (cfg.cacheline * cfg.pagesize) *
        (cfg.pagesize * cfg.cacheline)) + 1) = 2 ^ cfg.workrank ∨
  (st.globalSharers (get_classification_index cfg
      ((st.cacheControl s).tag / (cfg.cacheline * cfg.pagesize) *
        (cfg.pagesize * cfg.cacheline)) + 1) = 0 ∧
   Nat.land (st.globalSharers (get_classification_index cfg
      ((st.cacheControl s).tag / (cfg.cacheline * cfg.pagesize) *
        (cfg.pagesize * cfg.cacheline)))) (2 ^ cfg.workrank) =
     2 ^ cfg.workrank)

/-- Loop invariant of the self-invalidation pass relating the running
accumulator `p` (state and one-shot flush flag) to the initial state
`st`: the sharer words are untouched, tags are untouched, the touched
map only shrinks, and the write buffer is either still the initial one
with all members dirty (no flush yet) or empty (after the flush). -/
def si_base (st : node_view) (p : node_view × Nat) : Prop :=
  p.1.globalSharers = st.globalSharers ∧
  (∀ j, ((p.1).cacheControl j).tag = (st.cacheControl j).tag) ∧
  (∀ j, (p.1).touchedcache j ≠ 0 → st.touchedcache j ≠ 0) ∧
  (p.2 = 0 → (p.1).wb = st.wb ∧
    ∀ j ∈ st.wb, ((p.1).cacheControl j).dirty = DIRTY) ∧
  (p.2 ≠ 0 → (p.1).wb = [])

/-- Tracking of a kept slot `s` through the pass: state and touched flag
unchanged (touched stays 1), the dirty flag either unchanged or
downgraded to `CLEAN` by the write-buffer flush. -/
def si_keep_track (st : node_view) (s : Nat) (p : node_view × Nat) : Prop :=
  ((p.1).cacheControl s).state = (st.cacheControl s).state ∧
  (p.1).touchedcache s = 1 ∧
  (((p.1).cacheControl s).dirty = (st.cacheControl s).dirty ∨
   ((p.1).cacheControl s).dirty = CLEAN)

/-- Tracking of an invalidated slot `s` after its processing: state
`INVALID`, dirty `CLEAN`, touched 0, all pages of its line protected
`PROT_NONE`; additionally, if `s` was buffered, the flush must already
have happened (so no later flush can re-protect the line). -/
def si_inval_track (cfg : node_config) (st : node_view) (s : Nat)
    (p : node_view × Nat) : Prop :=
  ((p.1).cacheControl s).state = INVALID ∧
  ((p.1).cacheControl s).dirty = CLEAN ∧
  (p.1).touchedcache s = 0 ∧
  (∀ r, r < cfg.cacheline →
    (p.1).prot ((st.cacheControl s).tag / cfg.pagesize + r) =
      mem_prot.prot_none) ∧
  (s ∈ st.wb → p.2 ≠ 0)

/-- Tracking of slot `s` before the pass reaches it: its control data is
still the initial one, except that the write-buffer flush performed at an
earlier slot may already have downgraded its dirty flag to `CLEAN`; its
touched flag is still the initial one. -/
def si_pre_track (st : node_view) (s : Nat) (p : node_view × Nat) : Prop :=
  ((p.1).cacheControl s = st.cacheControl s ∨
   (p.1).cacheControl s = { st.cacheControl s with dirty := CLEAN }) ∧
  (p.1).touchedcache s = st.touchedcache s

/-- Tiny concrete configuration used to evaluate `self_invalidation`:
one node (rank 0), page size 4, cache line length 1, two cache slots,
classification directory of four words. -/
def c1cfg : node_config := ⟨4, 1, 2, 4, 1, 0, 8, 8, 8, 4⟩

/-- Concrete state for the self-invalidation pass: slot 0 holds the line
at address 0 (`VALID`, `DIRTY`, touched), the node is the single writer
of that line (writer word `= 2 ^ 0`), and slot 0 sits in the write
buffer. -/
def c1st : node_view :=
  { cacheControl := fun j => if j = 0 then ⟨0, VALID, DIRTY⟩
      else ⟨4, INVALID, CLEAN⟩
    touchedcache := fun j => if j = 0 then 1 else 0
    globalSharers := fun w => if w ≤ 1 then 1 else 0
    remoteSharers := fun _ _ => 0
    wb := [0]
    pagecopy := fun _ => 0
    realData := fun _ => 0
    remoteData := fun _ _ => 0
    prot := fun _ => mem_prot.prot_read_write }

/-! ## Helper lemmas -/

theorem dvd_align_forwards (o m : Nat) : m ∣ align_forwards o m := by
  by_cases h : o = 0
  · simp [align_forwards, h]
  · simp only [align_forwards, if_neg h]
    exact dvd_mul_left m _

theorem le_align_forwards (o m : Nat) (hm : 0 < m) : o ≤ align_forwards o m := by
  by_cases h : o = 0
  · simp [align_forwards, h]
  · simp only [align_forwards, if_neg h]
    have h1 : o - 1 < (o - 1) / m * m + m := Nat.lt_div_mul_add hm
    have h2 : (1 + (o - 1) / m) * m = (o - 1) / m * m + m := by ring
    omega

theorem align_forwards_lt (o m : Nat) (ho : 0 < o) (_hm : 0 < m) :
    align_forwards o m < o + m := by
  unfold align_forwards
  rw [if_neg (by omega)]
  have h1 : (o - 1) / m * m ≤ o - 1 := Nat.div_mul_le_self _ _
  have h2 : (1 + (o - 1) / m) * m = (o - 1) / m * m + m := by ring
  omega

theorem home_guard_ok {cfg : dist_config} {x v : Nat}
    (h : home_guard cfg x = Except.ok v) : v < cfg.nodes := by
  unfold home_guard at h
  split at h
  · exact absurd h (by simp)
  · injection h with h
    omega

theorem offset_guard_ok {cfg : dist_config} {x v : Nat}
    (h : offset_guard cfg x = Except.ok v) : v < cfg.size_per_node := by
  unfold offset_guard at h
  split at h
  · exact absurd h (by simp)
  · injection h with h
    omega

theorem home_guard_lt {cfg : dist_config} {x : Nat} (h : x < cfg.nodes) :
    home_guard cfg x = Except.ok x := by
  unfold home_guard
  rw [if_neg (by omega)]

theorem offset_guard_lt {cfg : dist_config} {x : Nat}
    (h : x < cfg.size_per_node) : offset_guard cfg x = Except.ok x := by
  unfold offset_guard
  rw [if_neg (by omega)]

theorem rounded_div (a g B : Nat) (hg : 0 < g) (hdvd : g ∣ B) :
    a / g * g / B = a / B := by
  obtain ⟨k, rfl⟩ := hdvd
  rw [← Nat.div_div_eq_div_mul, ← Nat.div_div_eq_div_mul,
    Nat.mul_div_cancel _ hg]

theorem rounded_mod_add (a g B : Nat) (hg : 0 < g) (hdvd : g ∣ B)
    (hgB : g ≤ B) : a / g * g % B + a % g = a % B := by
  have hxg : g ∣ a / g * g := dvd_mul_left g (a / g)
  have hxB : g ∣ a / g * g % B := (Nat.dvd_mod_iff hdvd).2 hxg
  have hr : a % g < g := Nat.mod_lt _ hg
  have hB : 0 < B := lt_of_lt_of_le hg hgB
  have hxB_lt : a / g * g % B < B := Nat.mod_lt _ hB
  obtain ⟨u, hu⟩ := hxB
  obtain ⟨k, hk⟩ := hdvd
  have huk : u < k := by
    have : g * u < g * k := by rw [← hu, ← hk]; exact hxB_lt
    exact Nat.lt_of_mul_lt_mul_left this
  have hsum : a / g * g % B + a % g < B := by
    have h1 : g * u + a % g < g * (u + 1) := by
      have : g * (u + 1) = g * u + g := by ring
      omega
    have h2 : g * (u + 1) ≤ g * k := Nat.mul_le_mul_left g huk
    omega
  have hax : a / g * g + a % g = a := by
    have := Nat.div_add_mod a g
    have hcomm : a / g * g = g * (a / g) := Nat.mul_comm _ _
    omega
  calc a / g * g % B + a % g
      = (a / g * g % B + a % g % B) % B := by
        rw [Nat.mod_eq_of_lt (lt_of_lt_of_le hr hgB),
          Nat.mod_eq_of_lt hsum]
    _ = (a / g * g + a % g) % B := by rw [← Nat.add_mod]
    _ = a % B := by rw [hax]

theorem band_offset_lt (a B N m : Nat) (hB : 0 < B) (hN : 0 < N)
    (ha : a < B * N * m) : a / B / N * B + a % B < B * m := by
  have h1 : a / B < N * m := by
    rw [Nat.div_lt_iff_lt_mul hB]
    calc a < B * N * m := ha
      _ = N * m * B := by ring
  have h2 : a / B / N < m := by
    rw [Nat.div_lt_iff_lt_mul hN]
    calc a / B < N * m := h1
      _ = m * N := by ring
  have h3 : a % B < B := Nat.mod_lt _ hB
  have h4 : (a / B / N + 1) * B ≤ m * B := Nat.mul_le_mul_right B h2
  have h5 : (a / B / N + 1) * B = a / B / N * B + B := by ring
  have h6 : m * B = B * m := by ring
  omega

/-! ## Theorems for the claims -/

/-- C6 (counterexample): the claim computes the resulting cache size from
the requested `cache_size` alone (rounded up to `P * K`, floored to
`2 * P * K`).  On the concrete input `argo_initialize(4096, 409600)` with
`P = 4096`, `K = 1`, `N = 1`, the code first clamps the cache size to the
(much smaller) standardised global size and yields 2 pages, while the
claimed formula yields 100 pages. -/
theorem c6_cache_size_counterexample :
    argo_init_cachesize 4096 409600 4096 1 1 = 2 ∧
    claimed_cachesize 409600 4096 1 = 100 ∧ (2 : Nat) ≠ 100 := by
  refine ⟨?_, ?_, by omega⟩ <;> decide

/-- C6 (amended): for positive `P`, `K`, `N`, the resulting global memory
size is the requested size — raised to at least one page per node
(`P * N`) — rounded up to the next multiple of `P * K * N`; the resulting
cache size (in pages) is a multiple of `K` pages, at least `2 * K` pages
(that is, `2 * P * K` bytes), and equals the requested `cache_size`
clamped to at most the standardised global size, aligned forwards to
`P * K` bytes and floored to `2 * P * K` bytes. -/
theorem c6_initialization_sizes (s c P K N : Nat)
    (hP : 0 < P) (hK : 0 < K) (hN : 0 < N) :
    (P * K * N ∣ argo_init_size_of_all s P K N) ∧
    max s (P * N) ≤ argo_init_size_of_all s P K N ∧
    argo_init_size_of_all s P K N < max s (P * N) + P * K * N ∧
    K ∣ argo_init_cachesize s c P K N ∧
    2 * K ≤ argo_init_cachesize s c P K N ∧
    P * argo_init_cachesize s c P K N =
      max (align_forwards (min (argo_init_size_of_all s P K N) c) (P * K))
        (2 * (P * K)) := by
  have hPKN : 0 < P * K * N := by positivity
  have hPK : 0 < P * K := by positivity
  have hmax : 0 < max s (P * N) := lt_max_of_lt_right (by positivity)
  have hcache : argo_init_cachesize s c P K N =
      max (align_forwards (min (argo_init_size_of_all s P K N) c) (P * K))
        (P * K * 2) / P := rfl
  have hdvd : P * K ∣
      max (align_forwards (min (argo_init_size_of_all s P K N) c) (P * K))
        (P * K * 2) := by
    rcases max_choice
        (align_forwards (min (argo_init_size_of_all s P K N) c) (P * K))
        (P * K * 2) with h | h <;> rw [h]
    · exact dvd_align_forwards _ _
    · exact dvd_mul_right _ _
  obtain ⟨t, ht⟩ := hdvd
  have hyP : max (align_forwards (min (argo_init_size_of_all s P K N) c)
      (P * K)) (P * K * 2) / P = K * t := by
    rw [ht, Nat.mul_assoc, Nat.mul_div_cancel_left _ hP]
  have hyge : P * K * 2 ≤
      max (align_forwards (min (argo_init_size_of_all s P K N) c) (P * K))
        (P * K * 2) := le_max_right _ _
  have h2t : 2 ≤ t := Nat.le_of_mul_le_mul_left (ht ▸ hyge) hPK
  refine ⟨dvd_align_forwards _ _, le_align_forwards _ _ hPKN,
    align_forwards_lt _ _ hmax hPKN, ?_, ?_, ?_⟩
  · rw [hcache, hyP]
    exact dvd_mul_right _ _
  · rw [hcache, hyP]
    calc 2 * K = K * 2 := by ring
    _ ≤ K * t := Nat.mul_le_mul_left K h2t
  · have hPy : P ∣
        max (align_forwards (min (argo_init_size_of_all s P K N) c) (P * K))
          (P * K * 2) := ⟨K * t, by rw [ht, Nat.mul_assoc]⟩
    rw [hcache, Nat.mul_div_cancel' hPy]
    have h22 : P * K * 2 = 2 * (P * K) := by ring
    rw [h22]

/-- C6 (witness): the amended size characterisation instantiated at
`argo_initialize(4096, 409600)` with `P = 4096`, `K = 1`, `N = 1`. -/
theorem c6_initialization_sizes_witness :
    (4096 * 1 * 1 ∣ argo_init_size_of_all 4096 4096 1 1) ∧
    max 4096 (4096 * 1) ≤ argo_init_size_of_all 4096 4096 1 1 ∧
    argo_init_size_of_all 4096 4096 1 1 < max 4096 (4096 * 1) + 4096 * 1 * 1 ∧
    1 ∣ argo_init_cachesize 4096 409600 4096 1 1 ∧
    2 * 1 ≤ argo_init_cachesize 4096 409600 4096 1 1 ∧
    4096 * argo_init_cachesize 4096 409600 4096 1 1 =
      max (align_forwards (min (argo_init_size_of_all 4096 4096 1 1) 409600)
        (4096 * 1)) (2 * (4096 * 1)) :=
  c6_initialization_sizes 4096 409600 4096 1 1 (by decide) (by decide) (by decide)

theorem offset_guard_ok_eq {cfg : dist_config} {x v : Nat}
    (h : offset_guard cfg x = Except.ok v) : v = x := by
  unfold offset_guard at h
  split at h
  · exact Except.noConfusion h
  · injection h with h
    omega

theorem wb_sort_first_perm (wbsize : Nat) (buf : List Nat) :
    (wb_sort_first wbsize buf).Perm buf := by
  unfold wb_sort_first
  have h2 := (List.perm_insertionSort (fun a b => a ≤ b)
    (buf.take wbsize)).append_right (buf.drop wbsize)
  rw [List.take_append_drop] at h2
  exact h2

theorem foldl_proj {α β : Type} (step : node_view → α → node_view)
    (proj : node_view → β) (hstep : ∀ s x, proj (step s x) = proj s) :
    ∀ (l : List α) (st : node_view), proj (List.foldl step st l) = proj st := by
  intro l
  induction l with
  | nil => intro st; rfl
  | cons x rest ih =>
    intro st
    rw [List.foldl_cons, ih, hstep]

theorem flush_one_frame (cfg : node_config) (st : node_view) (u : Nat) :
    (flush_one cfg st u).touchedcache = st.touchedcache ∧
    (flush_one cfg st u).pagecopy = st.pagecopy ∧
    (flush_one cfg st u).wb = st.wb ∧
    (flush_one cfg st u).realData = st.realData ∧
    (flush_one cfg st u).globalSharers = st.globalSharers ∧
    (∀ j, j ≠ u → (flush_one cfg st u).cacheControl j = st.cacheControl j) := by
  unfold flush_one
  dsimp only
  refine ⟨?_, ?_, ?_, ?_, ?_, ?_⟩
  · refine (foldl_proj _ node_view.touchedcache ?_ _ _).trans rfl
    intro s x
    rfl
  · refine (foldl_proj _ node_view.pagecopy ?_ _ _).trans rfl
    intro s x
    rfl
  · refine (foldl_proj _ node_view.wb ?_ _ _).trans rfl
    intro s x
    rfl
  · refine (foldl_proj _ node_view.realData ?_ _ _).trans rfl
    intro s x
    rfl
  · refine (foldl_proj _ node_view.globalSharers ?_ _ _).trans rfl
    intro s x
    rfl
  · intro j hj
    refine (congrFun ((foldl_proj _ node_view.cacheControl ?_ _ _).trans rfl)
      j).trans ?_
    · intro s x
      rfl
    · show fupd st.cacheControl u { st.cacheControl u with dirty := CLEAN } j =
        st.cacheControl j
      unfold fupd
      rw [if_neg hj]

theorem flush_fold_frame (cfg : node_config) : ∀ (l : List Nat) (st : node_view),
    (List.foldl (flush_one cfg) st l).touchedcache = st.touchedcache ∧
    (List.foldl (flush_one cfg) st l).pagecopy = st.pagecopy ∧
    (List.foldl (flush_one cfg) st l).wb = st.wb ∧
    (List.foldl (flush_one cfg) st l).realData = st.realData ∧
    (List.foldl (flush_one cfg) st l).globalSharers = st.globalSharers ∧
    (∀ j, j ∉ l →
      (List.foldl (flush_one cfg) st l).cacheControl j = st.cacheControl j) := by
  intro l
  induction l with
  | nil => intro st; exact ⟨rfl, rfl, rfl, rfl, rfl, fun j _ => rfl⟩
  | cons u rest ih =>
    intro st
    obtain ⟨ht, hp, hw, hr, hg, hcc⟩ := ih (flush_one cfg st u)
    obtain ⟨ht1, hp1, hw1, hr1, hg1, hcc1⟩ := flush_one_frame cfg st u
    rw [List.foldl_cons]
    refine ⟨by rw [ht, ht1], by rw [hp, hp1], by rw [hw, hw1],
      by rw [hr, hr1], by rw [hg, hg1], ?_⟩
    intro j hj
    rw [List.mem_cons] at hj
    push_neg at hj
    rw [hcc j hj.2, hcc1 j hj.1]

theorem addr_div_add (cfg : node_config) (addr : Nat) (hP : 0 < cfg.pagesize)
    (hdvd : cfg.pagesize ∣ addr) :
    (addr + cfg.pagesize * cfg.cacheline) / cfg.pagesize =
      addr / cfg.pagesize + cfg.cacheline := by
  obtain ⟨q, rfl⟩ := hdvd
  rw [show cfg.pagesize * q + cfg.pagesize * cfg.cacheline =
    cfg.pagesize * (q + cfg.cacheline) from by ring]
  rw [Nat.mul_div_cancel_left _ hP, Nat.mul_div_cancel_left _ hP]

theorem set_prot_outside (cfg : node_config) (pr : Nat → mem_prot)
    (addr : Nat) (p : mem_prot) (pg : Nat) (hP : 0 < cfg.pagesize)
    (hdvd : cfg.pagesize ∣ addr)
    (h : pg < addr / cfg.pagesize ∨ addr / cfg.pagesize + cfg.cacheline ≤ pg) :
    set_prot cfg pr addr (cfg.pagesize * cfg.cacheline) p pg = pr pg := by
  unfold set_prot
  rw [if_neg]
  rw [addr_div_add cfg addr hP hdvd]
  omega

theorem flush_one_cc (cfg : node_config) (st : node_view) (u j : Nat) :
    (flush_one cfg st u).cacheControl j =
      if j = u then { st.cacheControl u with dirty := CLEAN }
      else st.cacheControl j := by
  unfold flush_one
  dsimp only
  refine (congrFun ((foldl_proj _ node_view.cacheControl ?_ _ _).trans rfl)
    j).trans ?_
  · intro a x
    rfl
  · rfl

theorem flush_one_prot (cfg : node_config) (st : node_view) (u : Nat) :
    (flush_one cfg st u).prot =
      set_prot cfg st.prot ((st.cacheControl u).tag)
        (cfg.pagesize * cfg.cacheline) mem_prot.prot_read := by
  unfold flush_one
  dsimp only
  refine ((foldl_proj _ node_view.prot ?_ _ _).trans rfl)
  intro a x
  rfl

theorem flush_fold_cc_cases (cfg : node_config) :
    ∀ (l : List Nat) (q : node_view) (j : Nat),
      (List.foldl (flush_one cfg) q l).cacheControl j = q.cacheControl j ∨
      (List.foldl (flush_one cfg) q l).cacheControl j =
        { q.cacheControl j with dirty := CLEAN } := by
  intro l
  induction l with
  | nil => intro q j; left; rfl
  | cons u rest ih =>
    intro q j
    rw [List.foldl_cons]
    rcases ih (flush_one cfg q u) j with h | h <;> rw [h, flush_one_cc]
    · by_cases hj : j = u
      · rw [if_pos hj, hj]
        right
        rfl
      · rw [if_neg hj]
        left
        rfl
    · by_cases hj : j = u
      · rw [if_pos hj, hj]
        right
        rfl
      · rw [if_neg hj]
        right
        rfl

theorem flush_fold_prot_outside (cfg : node_config) (hP : 0 < cfg.pagesize) :
    ∀ (l : List Nat) (q : node_view) (pg : Nat),
      (∀ u ∈ l, cfg.pagesize * cfg.cacheline ∣ (q.cacheControl u).tag ∧
        (pg < (q.cacheControl u).tag / cfg.pagesize ∨
         (q.cacheControl u).tag / cfg.pagesize + cfg.cacheline ≤ pg)) →
      (List.foldl (flush_one cfg) q l).prot pg = q.prot pg := by
  intro l
  induction l with
  | nil => intro q pg _; rfl
  | cons u rest ih =>
    intro q pg hcond
    rw [List.foldl_cons]
    have htags : ∀ j, ((flush_one cfg q u).cacheControl j).tag =
        (q.cacheControl j).tag := by
      intro j
      rw [flush_one_cc]
      by_cases hj : j = u
      · rw [if_pos hj, hj]
      · rw [if_neg hj]
    have hrest : ∀ v ∈ rest, cfg.pagesize * cfg.cacheline ∣
        ((flush_one cfg q u).cacheControl v).tag ∧
        (pg < ((flush_one cfg q u).cacheControl v).tag / cfg.pagesize ∨
         ((flush_one cfg q u).cacheControl v).tag / cfg.pagesize +
           cfg.cacheline ≤ pg) := by
      intro v hv
      rw [htags]
      exact hcond v (List.mem_cons_of_mem _ hv)
    rw [ih (flush_one cfg q u) pg hrest]
    rw [show (flush_one cfg q u).prot pg = _ from congrFun
      (flush_one_prot cfg q u) pg]
    obtain ⟨hdvd, hout⟩ := hcond u (List.mem_cons_self _ _)
    have hPdvd : cfg.pagesize ∣ (q.cacheControl u).tag :=
      dvd_trans (Dvd.intro _ rfl) hdvd
    exact set_prot_outside cfg q.prot _ mem_prot.prot_read pg hP hPdvd hout

theorem wfa_fields (cfg : node_config) (st : node_view) :
    (wb_flush_apply cfg st).globalSharers = st.globalSharers ∧
    (wb_flush_apply cfg st).touchedcache = st.touchedcache ∧
    (wb_flush_apply cfg st).wb = [] ∧
    (∀ j, (wb_flush_apply cfg st).cacheControl j = st.cacheControl j ∨
      (wb_flush_apply cfg st).cacheControl j =
        { st.cacheControl j with dirty := CLEAN }) := by
  unfold wb_flush_apply
  dsimp only
  obtain ⟨ht, hp, hw, hr, hg, hcc⟩ := flush_fold_frame cfg
    (List.insertionSort (fun a b => a ≤ b) st.wb) st
  exact ⟨hg, ht, rfl, fun j => flush_fold_cc_cases cfg _ st j⟩

theorem wfa_prot_outside (cfg : node_config) (st : node_view) (pg : Nat)
    (hP : 0 < cfg.pagesize)
    (hcond : ∀ u ∈ st.wb, cfg.pagesize * cfg.cacheline ∣
        (st.cacheControl u).tag ∧
        (pg < (st.cacheControl u).tag / cfg.pagesize ∨
         (st.cacheControl u).tag / cfg.pagesize + cfg.cacheline ≤ pg)) :
    (wb_flush_apply cfg st).prot pg = st.prot pg := by
  unfold wb_flush_apply
  dsimp only
  refine flush_fold_prot_outside cfg hP _ st pg ?_
  intro u hu
  exact hcond u ((List.perm_insertionSort _ _).mem_iff.1 hu)

theorem self_inv_slot_untouched (cfg : node_config) (p : node_view × Nat)
    (i : Nat) (h : (p.1).touchedcache i = 0) : self_inv_slot cfg p i = p := by
  unfold self_inv_slot
  rw [if_neg (by simp [h])]

theorem self_inv_slot_touched (cfg : node_config) (p : node_view × Nat)
    (i : Nat) (h : (p.1).touchedcache i ≠ 0) :
    ∃ q : node_view × Nat,
      ((q = p ∧ ¬(p.2 = 0 ∧ ((p.1).cacheControl i).dirty = DIRTY)) ∨
       (q = (wb_flush_apply cfg (p.1), 1) ∧ p.2 = 0 ∧
         ((p.1).cacheControl i).dirty = DIRTY)) ∧
      ((q.1).globalSharers (get_classification_index cfg
          (((p.1).cacheControl i).tag / (cfg.cacheline * cfg.pagesize) *
            (cfg.pagesize * cfg.cacheline)) + 1) = 2 ^ cfg.workrank ∨
        ((q.1).globalSharers (get_classification_index cfg
          (((p.1).cacheControl i).tag / (cfg.cacheline * cfg.pagesize) *
            (cfg.pagesize * cfg.cacheline)) + 1) = 0 ∧
         Nat.land ((q.1).globalSharers (get_classification_index cfg
          (((p.1).cacheControl i).tag / (cfg.cacheline * cfg.pagesize) *
            (cfg.pagesize * cfg.cacheline)))) (2 ^ cfg.workrank) =
           2 ^ cfg.workrank) →
        self_inv_slot cfg p i =
          ({ q.1 with touchedcache := fupd (q.1).touchedcache i 1 }, q.2)) ∧
      (¬((q.1).globalSharers (get_classification_index cfg
          (((p.1).cacheControl i).tag / (cfg.cacheline * cfg.pagesize) *
            (cfg.pagesize * cfg.cacheline)) + 1) = 2 ^ cfg.workrank ∨
        ((q.1).globalSharers (get_classification_index cfg
          (((p.1).cacheControl i).tag / (cfg.cacheline * cfg.pagesize) *
            (cfg.pagesize * cfg.cacheline)) + 1) = 0 ∧
         Nat.land ((q.1).globalSharers (get_classification_index cfg
          (((p.1).cacheControl i).tag / (cfg.cacheline * cfg.pagesize) *
            (cfg.pagesize * cfg.cacheline)))) (2 ^ cfg.workrank) =
           2 ^ cfg.workrank)) →
        self_inv_slot cfg p i =
          ({ q.1 with
              cacheControl := fupd (q.1).cacheControl i
                { (q.1).cacheControl i with dirty := CLEAN, state := INVALID }
              touchedcache := fupd (q.1).touchedcache i 0
              prot := set_prot cfg (q.1).prot
                (((p.1).cacheControl i).tag / (cfg.cacheline * cfg.pagesize) *
                  (cfg.pagesize * cfg.cacheline))
                (cfg.pagesize * cfg.cacheline) mem_prot.prot_none }, q.2)) := by
  by_cases hf : p.2 = 0 ∧ ((p.1).cacheControl i).dirty = DIRTY
  · refine ⟨(wb_flush_apply cfg (p.1), 1), Or.inr ⟨rfl, hf⟩, ?_, ?_⟩ <;>
      intro hk <;>
      · unfold self_inv_slot
        rw [if_pos h]
        dsimp only
        rw [if_pos hf]
        dsimp only
        try dsimp only at hk
        first
          | rw [if_pos hk]
          | rw [if_neg hk]
  · refine ⟨p, Or.inl ⟨rfl, hf⟩, ?_, ?_⟩ <;>
      intro hk <;>
      · unfold self_inv_slot
        rw [if_pos h]
        dsimp only
        rw [if_neg hf]
        dsimp only
        try dsimp only at hk
        first
          | rw [if_pos hk]
          | rw [if_neg hk]

theorem fupd_self {α : Type} (f : Nat → α) (i : Nat) (v : α) :
    fupd f i v i = v := by
  unfold fupd
  rw [if_pos rfl]

theorem fupd_other {α : Type} (f : Nat → α) (i j : Nat) (v : α) (h : j ≠ i) :
    fupd f i v j = f j := by
  unfold fupd
  rw [if_neg h]

theorem line_div_eq (cfg : node_config) (t : Nat) (hP : 0 < cfg.pagesize)
    (hK : 0 < cfg.cacheline)
    (hdvd : cfg.pagesize * cfg.cacheline ∣ t) :
    t / (cfg.cacheline * cfg.pagesize) * (cfg.pagesize * cfg.cacheline) = t := by
  obtain ⟨m, rfl⟩ := hdvd
  rw [show cfg.pagesize * cfg.cacheline * m =
    cfg.cacheline * cfg.pagesize * m from by ring]
  rw [Nat.mul_div_cancel_left _ (by positivity)]
  ring

theorem line_tag_div (cfg : node_config) (t : Nat) (hP : 0 < cfg.pagesize)
    (hdvd : cfg.pagesize * cfg.cacheline ∣ t) :
    ∃ a, t / cfg.pagesize = cfg.cacheline * a := by
  obtain ⟨m, rfl⟩ := hdvd
  refine ⟨m, ?_⟩
  rw [show cfg.pagesize * cfg.cacheline * m =
    cfg.pagesize * (cfg.cacheline * m) from by ring]
  rw [Nat.mul_div_cancel_left _ hP]

theorem line_pages_outside (cfg : node_config) (t1 t2 : Nat)
    (hP : 0 < cfg.pagesize) (_hK : 0 < cfg.cacheline)
    (h1 : cfg.pagesize * cfg.cacheline ∣ t1)
    (h2 : cfg.pagesize * cfg.cacheline ∣ t2)
    (hne : t1 / cfg.pagesize ≠ t2 / cfg.pagesize)
    (r : Nat) (hr : r < cfg.cacheline) :
    t1 / cfg.pagesize + r < t2 / cfg.pagesize ∨
    t2 / cfg.pagesize + cfg.cacheline ≤ t1 / cfg.pagesize + r := by
  obtain ⟨a, ha⟩ := line_tag_div cfg t1 hP h1
  obtain ⟨b, hb⟩ := line_tag_div cfg t2 hP h2
  rw [ha, hb] at hne ⊢
  have hab : a ≠ b := by
    intro he
    rw [he] at hne
    exact hne rfl
  rcases Nat.lt_or_ge a b with h | h
  · left
    have hle : cfg.cacheline * (a + 1) ≤ cfg.cacheline * b :=
      Nat.mul_le_mul_left _ h
    have he : cfg.cacheline * (a + 1) = cfg.cacheline * a + cfg.cacheline := by
      ring
    omega
  · right
    have hba : b < a := by omega
    have hle : cfg.cacheline * (b + 1) ≤ cfg.cacheline * a :=
      Nat.mul_le_mul_left _ hba
    have he : cfg.cacheline * (b + 1) = cfg.cacheline * b + cfg.cacheline := by
      ring
    omega

theorem coherent_ne_div (cfg : node_config) (st : node_view) (j1 j2 : Nat)
    (hc1 : slot_coherent cfg st j1) (hc2 : slot_coherent cfg st j2)
    (hne : j1 ≠ j2) :
    (st.cacheControl j1).tag / cfg.pagesize ≠
      (st.cacheControl j2).tag / cfg.pagesize := by
  intro he
  apply hne
  rw [← hc1.2, ← hc2.2, he]

theorem si_base_step (cfg : node_config) (st : node_view) (p : node_view × Nat)
    (i : Nat) (hb : si_base st p) : si_base st (self_inv_slot cfg p i) := by
  obtain ⟨hB1, hB2, hB3, hB4, hB5⟩ := hb
  by_cases ht : (p.1).touchedcache i = 0
  · rw [self_inv_slot_untouched cfg p i ht]
    exact ⟨hB1, hB2, hB3, hB4, hB5⟩
  · obtain ⟨q, hq, hkeep, hinval⟩ := self_inv_slot_touched cfg p i ht
    have hq1g : (q.1).globalSharers = st.globalSharers := by
      rcases hq with ⟨heq, _⟩ | ⟨heq, _, _⟩ <;> rw [heq]
      · exact hB1
      · exact ((wfa_fields cfg (p.1)).1).trans hB1
    have hq1cc : ∀ j, (q.1).cacheControl j = (p.1).cacheControl j ∨
        (q.1).cacheControl j = { (p.1).cacheControl j with dirty := CLEAN } := by
      intro j
      rcases hq with ⟨heq, _⟩ | ⟨heq, _, _⟩ <;> rw [heq]
      · left; rfl
      · exact (wfa_fields cfg (p.1)).2.2.2 j
    have hq1tag : ∀ j, ((q.1).cacheControl j).tag = (st.cacheControl j).tag := by
      intro j
      rcases hq1cc j with h | h <;> rw [h]
      · exact hB2 j
      · exact hB2 j
    have hq1t : (q.1).touchedcache = (p.1).touchedcache := by
      rcases hq with ⟨heq, _⟩ | ⟨heq, _, _⟩
      · rw [heq]
      · rw [heq]
        exact (wfa_fields cfg (p.1)).2.1
    have hq1wb : (q.2 = p.2 ∧ (q.1).wb = (p.1).wb) ∨
        (q.2 = 1 ∧ (q.1).wb = [] ∧ p.2 = 0) := by
      rcases hq with ⟨heq, _⟩ | ⟨heq, h0, _⟩ <;> rw [heq]
      · left; exact ⟨rfl, rfl⟩
      · right; exact ⟨rfl, (wfa_fields cfg (p.1)).2.2.1, h0⟩
    have hdirty_pres : ∀ j, j ∈ st.wb → q.2 = 0 →
        ((q.1).cacheControl j).dirty = DIRTY := by
      intro j hj h0
      rcases hq1wb with ⟨he2, _⟩ | ⟨he2, _, _⟩
      · have hp2 : p.2 = 0 := by omega
        have hd := (hB4 hp2).2 j hj
        rcases hq with ⟨heq, _⟩ | ⟨heq, hp0, _⟩
        · rw [heq]
          exact hd
        · rw [heq] at h0
          dsimp only at h0
          omega
      · omega
    have hino : q.2 = 0 → ¬((q.1).cacheControl i).dirty = DIRTY → i ∉ st.wb := by
      intro h0 hnd hmem
      exact hnd (hdirty_pres i hmem h0)
    have hqwb_eq : q.2 = 0 → (q.1).wb = st.wb := by
      intro h0
      rcases hq1wb with ⟨he2, hewb⟩ | ⟨he2, _, _⟩
      · rw [hewb]
        exact (hB4 (by omega)).1
      · omega
    have hqwb_nil : q.2 ≠ 0 → (q.1).wb = [] := by
      intro h1
      rcases hq1wb with ⟨he2, hewb⟩ | ⟨_, hewb, _⟩
      · rw [hewb]
        exact hB5 (by omega)
      · exact hewb
    by_cases hkc : (q.1).globalSharers (get_classification_index cfg
        (((p.1).cacheControl i).tag / (cfg.cacheline * cfg.pagesize) *
          (cfg.pagesize * cfg.cacheline)) + 1) = 2 ^ cfg.workrank ∨
        ((q.1).globalSharers (get_classification_index cfg
          (((p.1).cacheControl i).tag / (cfg.cacheline * cfg.pagesize) *
            (cfg.pagesize * cfg.cacheline)) + 1) = 0 ∧
         Nat.land ((q.1).globalSharers (get_classification_index cfg
          (((p.1).cacheControl i).tag / (cfg.cacheline * cfg.pagesize) *
            (cfg.pagesize * cfg.cacheline)))) (2 ^ cfg.workrank) =
           2 ^ cfg.workrank)
    · rw [hkeep hkc]
      refine ⟨hq1g, hq1tag, ?_, ?_, ?_⟩
      · intro j hj
        dsimp only at hj
        by_cases hji : j = i
        · subst hji
          exact hB3 j ht
        · rw [fupd_other _ _ _ _ hji, hq1t] at hj
          exact hB3 j hj
      · intro h0
        dsimp only at h0 ⊢
        exact ⟨hqwb_eq h0, fun j hj => hdirty_pres j hj h0⟩
      · intro h1
        dsimp only at h1 ⊢
        exact hqwb_nil h1
    · rw [hinval hkc]
      have hndirty : ∀ h0 : q.2 = 0, i ∉ st.wb ∨
          ((q.1).cacheControl i).dirty = DIRTY := by
        intro h0
        by_cases hd : ((q.1).cacheControl i).dirty = DIRTY
        · right; exact hd
        · left; exact hino h0 hd
      refine ⟨hq1g, ?_, ?_, ?_, ?_⟩
      · intro j
        dsimp only
        by_cases hji : j = i
        · subst hji
          rw [fupd_self]
          exact hq1tag j
        · rw [fupd_other _ _ _ _ hji]
          exact hq1tag j
      · intro j hj
        dsimp only at hj
        by_cases hji : j = i
        · subst hji
          rw [fupd_self] at hj
          exact absurd rfl hj
        · rw [fupd_other _ _ _ _ hji, hq1t] at hj
          exact hB3 j hj
      · intro h0
        dsimp only at h0 ⊢
        refine ⟨hqwb_eq h0, ?_⟩
        intro j hj
        by_cases hji : j = i
        · subst hji
          -- a buffered slot is dirty while no flush has happened, but then
          -- the flush would have run in this very step: contradiction
          rcases hq with ⟨heq, hnf⟩ | ⟨heq, _, _⟩
          · exfalso
            apply hnf
            have hp2 : p.2 = 0 := by rw [heq] at h0; exact h0
            have hd := hdirty_pres j hj h0
            rw [heq] at hd
            exact ⟨hp2, hd⟩
          · rw [heq] at h0
            dsimp only at h0
            omega
        · rw [fupd_other _ _ _ _ hji]
          exact hdirty_pres j hj h0
      · intro h1
        dsimp only at h1 ⊢
        exact hqwb_nil h1

theorem cc_opt_state {p q : control_data}
    (h : q = p ∨ q = { p with dirty := CLEAN }) : q.state = p.state := by
  rcases h with h | h
  · rw [h]
  · rw [h]

theorem cc_opt_dirty {p q : control_data}
    (h : q = p ∨ q = { p with dirty := CLEAN }) :
    q.dirty = p.dirty ∨ q.dirty = CLEAN := by
  rcases h with h | h
  · left; rw [h]
  · right; rw [h]

theorem cc_opt_trans {x p q : control_data}
    (h1 : p = x ∨ p = { x with dirty := CLEAN })
    (h2 : q = p ∨ q = { p with dirty := CLEAN }) :
    q = x ∨ q = { x with dirty := CLEAN } := by
  rcases h2 with h2 | h2
  · rw [h2]; exact h1
  · rcases h1 with h1 | h1
    · right; rw [h2, h1]
    · right; rw [h2, h1]

theorem set_prot_cases (cfg : node_config) (pr : Nat → mem_prot)
    (a l : Nat) (p : mem_prot) (pg : Nat) :
    set_prot cfg pr a l p pg = p ∨ set_prot cfg pr a l p pg = pr pg := by
  unfold set_prot
  by_cases h : a / cfg.pagesize ≤ pg ∧ pg < (a + l) / cfg.pagesize
  · left; rw [if_pos h]
  · right; rw [if_neg h]

theorem si_q_cc (cfg : node_config) (p q : node_view × Nat)
    (hq : q = p ∨ q.1 = wb_flush_apply cfg (p.1)) (j : Nat) :
    (q.1).cacheControl j = (p.1).cacheControl j ∨
      (q.1).cacheControl j = { (p.1).cacheControl j with dirty := CLEAN } := by
  rcases hq with h | h
  · left; rw [h]
  · rw [h]; exact (wfa_fields cfg (p.1)).2.2.2 j

theorem si_q_touched (cfg : node_config) (p q : node_view × Nat)
    (hq : q = p ∨ q.1 = wb_flush_apply cfg (p.1)) :
    (q.1).touchedcache = (p.1).touchedcache := by
  rcases hq with h | h
  · rw [h]
  · rw [h]; exact (wfa_fields cfg (p.1)).2.1

theorem si_pre_step (cfg : node_config) (st : node_view) (p : node_view × Nat)
    (s i : Nat) (hne : i ≠ s) (hpre : si_pre_track st s p) :
    si_pre_track st s (self_inv_slot cfg p i) := by
  obtain ⟨hpre1, hpre2⟩ := hpre
  by_cases ht : (p.1).touchedcache i = 0
  · rw [self_inv_slot_untouched cfg p i ht]
    exact ⟨hpre1, hpre2⟩
  · obtain ⟨q, hq, hkeep, hinval⟩ := self_inv_slot_touched cfg p i ht
    have hq' : q = p ∨ q.1 = wb_flush_apply cfg (p.1) := by
      rcases hq with ⟨h, _⟩ | ⟨h, _, _⟩
      · left; exact h
      · right; rw [h]
    have hcc := cc_opt_trans hpre1 (si_q_cc cfg p q hq' s)
    have ht' : (q.1).touchedcache s = st.touchedcache s := by
      rw [si_q_touched cfg p q hq']
      exact hpre2
    by_cases hkc : (q.1).globalSharers (get_classification_index cfg
        (((p.1).cacheControl i).tag / (cfg.cacheline * cfg.pagesize) *
          (cfg.pagesize * cfg.cacheline)) + 1) = 2 ^ cfg.workrank ∨
        ((q.1).globalSharers (get_classification_index cfg
          (((p.1).cacheControl i).tag / (cfg.cacheline * cfg.pagesize) *
            (cfg.pagesize * cfg.cacheline)) + 1) = 0 ∧
         Nat.land ((q.1).globalSharers (get_classification_index cfg
          (((p.1).cacheControl i).tag / (cfg.cacheline * cfg.pagesize) *
            (cfg.pagesize * cfg.cacheline)))) (2 ^ cfg.workrank) =
           2 ^ cfg.workrank)
    · rw [hkeep hkc]
      refine ⟨hcc, ?_⟩
      dsimp only
      rw [fupd_other _ _ _ _ (Ne.symm hne)]
      exact ht'
    · rw [hinval hkc]
      refine ⟨?_, ?_⟩
      · dsimp only
        rw [fupd_other _ _ _ _ (Ne.symm hne)]
        exact hcc
      · dsimp only
        rw [fupd_other _ _ _ _ (Ne.symm hne)]
        exact ht'

theorem si_keep_post_step (cfg : node_config) (st : node_view)
    (p : node_view × Nat) (s i : Nat) (hne : i ≠ s)
    (hk : si_keep_track st s p) :
    si_keep_track st s (self_inv_slot cfg p i) := by
  obtain ⟨hk1, hk2, hk3⟩ := hk
  by_cases ht : (p.1).touchedcache i = 0
  · rw [self_inv_slot_untouched cfg p i ht]
    exact ⟨hk1, hk2, hk3⟩
  · obtain ⟨q, hq, hkeep, hinval⟩ := self_inv_slot_touched cfg p i ht
    have hq' : q = p ∨ q.1 = wb_flush_apply cfg (p.1) := by
      rcases hq with ⟨h, _⟩ | ⟨h, _, _⟩
      · left; exact h
      · right; rw [h]
    have hcc := si_q_cc cfg p q hq' s
    have hst : ((q.1).cacheControl s).state = (st.cacheControl s).state := by
      rw [cc_opt_state hcc]
      exact hk1
    have hdi : ((q.1).cacheControl s).dirty = (st.cacheControl s).dirty ∨
        ((q.1).cacheControl s).dirty = CLEAN := by
      rcases cc_opt_dirty hcc with h | h
      · rw [h]; exact hk3
      · right; exact h
    have htc : (q.1).touchedcache s = 1 := by
      rw [si_q_touched cfg p q hq']
      exact hk2
    by_cases hkc : (q.1).globalSharers (get_classification_index cfg
        (((p.1).cacheControl i).tag / (cfg.cacheline * cfg.pagesize) *
          (cfg.pagesize * cfg.cacheline)) + 1) = 2 ^ cfg.workrank ∨
        ((q.1).globalSharers (get_classification_index cfg
          (((p.1).cacheControl i).tag / (cfg.cacheline * cfg.pagesize) *
            (cfg.pagesize * cfg.cacheline)) + 1) = 0 ∧
         Nat.land ((q.1).globalSharers (get_classification_index cfg
          (((p.1).cacheControl i).tag / (cfg.cacheline * cfg.pagesize) *
            (cfg.pagesize * cfg.cacheline)))) (2 ^ cfg.workrank) =
           2 ^ cfg.workrank)
    · rw [hkeep hkc]
      refine ⟨hst, ?_, hdi⟩
      dsimp only
      rw [fupd_other _ _ _ _ (Ne.symm hne)]
      exact htc
    · rw [hinval hkc]
      refine ⟨?_, ?_, ?_⟩
      · dsimp only
        rw [fupd_other _ _ _ _ (Ne.symm hne)]
        exact hst
      · dsimp only
        rw [fupd_other _ _ _ _ (Ne.symm hne)]
        exact htc
      · dsimp only
        rw [fupd_other _ _ _ _ (Ne.symm hne)]
        exact hdi

theorem set_prot_in_range (cfg : node_config) (pr : Nat → mem_prot)
    (aligned : Nat) (p : mem_prot) (hP : 0 < cfg.pagesize)
    (hdvd : cfg.pagesize ∣ aligned) :
    ∀ pg, aligned / cfg.pagesize ≤ pg →
      pg < aligned / cfg.pagesize + cfg.cacheline →
      set_prot cfg pr aligned (cfg.pagesize * cfg.cacheline) p pg = p := by
  obtain ⟨q, rfl⟩ := hdvd
  intro pg h1 h2
  have hq : cfg.pagesize * q / cfg.pagesize = q := Nat.mul_div_cancel_left _ hP
  have hqk : (cfg.pagesize * q + cfg.pagesize * cfg.cacheline) / cfg.pagesize =
      q + cfg.cacheline := by
    rw [show cfg.pagesize * q + cfg.pagesize * cfg.cacheline =
      cfg.pagesize * (q + cfg.cacheline) from by ring]
    exact Nat.mul_div_cancel_left _ hP
  unfold set_prot
  rw [if_pos]
  rw [hq, hqk]
  omega

theorem si_inval_post_step (cfg : node_config) (st : node_view)
    (p : node_view × Nat) (s i : Nat)
    (hP : 0 < cfg.pagesize) (hK : 0 < cfg.cacheline) (hne : i ≠ s)
    (hb : si_base st p)
    (hcoh_s : slot_coherent cfg st s)
    (hwb_coh : ∀ j ∈ st.wb, slot_coherent cfg st j)
    (hiv : si_inval_track cfg st s p) :
    si_inval_track cfg st s (self_inv_slot cfg p i) := by
  obtain ⟨hi1, hi2, hi3, hi4, hi5⟩ := hiv
  obtain ⟨hB1, hB2, hB3, hB4, hB5⟩ := hb
  by_cases ht : (p.1).touchedcache i = 0
  · rw [self_inv_slot_untouched cfg p i ht]
    exact ⟨hi1, hi2, hi3, hi4, hi5⟩
  · obtain ⟨q, hq, hkeep, hinval⟩ := self_inv_slot_touched cfg p i ht
    have hq' : q = p ∨ q.1 = wb_flush_apply cfg (p.1) := by
      rcases hq with ⟨h, _⟩ | ⟨h, _, _⟩
      · left; exact h
      · right; rw [h]
    have hcc := si_q_cc cfg p q hq' s
    have hqs : ((q.1).cacheControl s).state = INVALID := by
      rw [cc_opt_state hcc]
      exact hi1
    have hqd : ((q.1).cacheControl s).dirty = CLEAN := by
      rcases cc_opt_dirty hcc with h | h
      · rw [h]; exact hi2
      · exact h
    have hqt : (q.1).touchedcache s = 0 := by
      rw [si_q_touched cfg p q hq']
      exact hi3
    have hq2 : s ∈ st.wb → q.2 ≠ 0 := by
      intro hm
      rcases hq with ⟨h, _⟩ | ⟨h, _, _⟩
      · rw [h]
        exact hi5 hm
      · rw [h]
        dsimp only
        omega
    have hqprot : ∀ r, r < cfg.cacheline →
        (q.1).prot ((st.cacheControl s).tag / cfg.pagesize + r) =
          mem_prot.prot_none := by
      intro r hr
      rcases hq with ⟨h, _⟩ | ⟨h, hp0, _⟩
      · rw [h]
        exact hi4 r hr
      · have hsmem : s ∉ st.wb := fun hm => (hi5 hm) hp0
        have hwbeq : (p.1).wb = st.wb := (hB4 hp0).1
        have hq1 : q.1 = wb_flush_apply cfg (p.1) := by rw [h]
        have hcond : ∀ u ∈ (p.1).wb, cfg.pagesize * cfg.cacheline ∣
            ((p.1).cacheControl u).tag ∧
            ((st.cacheControl s).tag / cfg.pagesize + r <
               ((p.1).cacheControl u).tag / cfg.pagesize ∨
             ((p.1).cacheControl u).tag / cfg.pagesize + cfg.cacheline ≤
               (st.cacheControl s).tag / cfg.pagesize + r) := by
          intro u hu
          rw [hwbeq] at hu
          have hus : u ≠ s := fun he => hsmem (he ▸ hu)
          have hcu := hwb_coh u hu
          rw [hB2 u]
          exact ⟨hcu.1, line_pages_outside cfg (st.cacheControl s).tag
            (st.cacheControl u).tag hP hK hcoh_s.1 hcu.1
            (coherent_ne_div cfg st s u hcoh_s hcu (Ne.symm hus)) r hr⟩
        rw [hq1, wfa_prot_outside cfg (p.1) _ hP hcond]
        exact hi4 r hr
    by_cases hkc : (q.1).globalSharers (get_classification_index cfg
        (((p.1).cacheControl i).tag / (cfg.cacheline * cfg.pagesize) *
          (cfg.pagesize * cfg.cacheline)) + 1) = 2 ^ cfg.workrank ∨
        ((q.1).globalSharers (get_classification_index cfg
          (((p.1).cacheControl i).tag / (cfg.cacheline * cfg.pagesize) *
            (cfg.pagesize * cfg.cacheline)) + 1) = 0 ∧
         Nat.land ((q.1).globalSharers (get_classification_index cfg
          (((p.1).cacheControl i).tag / (cfg.cacheline * cfg.pagesize) *
            (cfg.pagesize * cfg.cacheline)))) (2 ^ cfg.workrank) =
           2 ^ cfg.workrank)
    · rw [hkeep hkc]
      refine ⟨hqs, hqd, ?_, hqprot, hq2⟩
      dsimp only
      rw [fupd_other _ _ _ _ (Ne.symm hne)]
      exact hqt
    · rw [hinval hkc]
      refine ⟨?_, ?_, ?_, ?_, hq2⟩
      · dsimp only
        rw [fupd_other _ _ _ _ (Ne.symm hne)]
        exact hqs
      · dsimp only
        rw [fupd_other _ _ _ _ (Ne.symm hne)]
        exact hqd
      · dsimp only
        rw [fupd_other _ _ _ _ (Ne.symm hne)]
        exact hqt
      · intro r hr
        dsimp only
        rcases set_prot_cases cfg (q.1).prot
            (((p.1).cacheControl i).tag / (cfg.cacheline * cfg.pagesize) *
              (cfg.pagesize * cfg.cacheline))
            (cfg.pagesize * cfg.cacheline) mem_prot.prot_none
            ((st.cacheControl s).tag / cfg.pagesize + r) with h | h
        · exact h
        · rw [h]
          exact hqprot r hr

theorem si_keep_establish (cfg : node_config) (st : node_view)
    (p : node_view × Nat) (s : Nat)
    (hb : si_base st p) (hpre : si_pre_track st s p)
    (ht0 : st.touchedcache s = 1) (hkc : si_keep_cond cfg st s) :
    si_keep_track st s (self_inv_slot cfg p s) := by
  obtain ⟨hB1, hB2, hB3, hB4, hB5⟩ := hb
  obtain ⟨hpre1, hpre2⟩ := hpre
  have ht : (p.1).touchedcache s ≠ 0 := by
    rw [hpre2, ht0]
    omega
  obtain ⟨q, hq, hkeep, hinval⟩ := self_inv_slot_touched cfg p s ht
  have hq' : q = p ∨ q.1 = wb_flush_apply cfg (p.1) := by
    rcases hq with ⟨h, _⟩ | ⟨h, _, _⟩
    · left; exact h
    · right; rw [h]
  have hq1g : (q.1).globalSharers = st.globalSharers := by
    rcases hq' with h | h
    · rw [h]; exact hB1
    · rw [h]; exact ((wfa_fields cfg (p.1)).1).trans hB1
  have hcond : (q.1).globalSharers (get_classification_index cfg
      (((p.1).cacheControl s).tag / (cfg.cacheline * cfg.pagesize) *
        (cfg.pagesize * cfg.cacheline)) + 1) = 2 ^ cfg.workrank ∨
      ((q.1).globalSharers (get_classification_index cfg
        (((p.1).cacheControl s).tag / (cfg.cacheline * cfg.pagesize) *
          (cfg.pagesize * cfg.cacheline)) + 1) = 0 ∧
       Nat.land ((q.1).globalSharers (get_classification_index cfg
        (((p.1).cacheControl s).tag / (cfg.cacheline * cfg.pagesize) *
          (cfg.pagesize * cfg.cacheline)))) (2 ^ cfg.workrank) =
         2 ^ cfg.workrank) := by
    rw [hq1g, hB2 s]
    exact hkc
  have hcc := cc_opt_trans hpre1 (si_q_cc cfg p q hq' s)
  rw [hkeep hcond]
  refine ⟨cc_opt_state hcc, ?_, cc_opt_dirty hcc⟩
  dsimp only
  rw [fupd_self]

theorem si_inval_establish (cfg : node_config) (st : node_view)
    (p : node_view × Nat) (s : Nat)
    (hP : 0 < cfg.pagesize) (hK : 0 < cfg.cacheline)
    (hb : si_base st p) (hpre : si_pre_track st s p)
    (ht0 : st.touchedcache s = 1)
    (hcoh_s : slot_coherent cfg st s)
    (hkc : ¬ si_keep_cond cfg st s) :
    si_inval_track cfg st s (self_inv_slot cfg p s) := by
  obtain ⟨hB1, hB2, hB3, hB4, hB5⟩ := hb
  obtain ⟨hpre1, hpre2⟩ := hpre
  have ht : (p.1).touchedcache s ≠ 0 := by
    rw [hpre2, ht0]
    omega
  obtain ⟨q, hq, hkeep, hinval⟩ := self_inv_slot_touched cfg p s ht
  have hq' : q = p ∨ q.1 = wb_flush_apply cfg (p.1) := by
    rcases hq with ⟨h, _⟩ | ⟨h, _, _⟩
    · left; exact h
    · right; rw [h]
  have hq1g : (q.1).globalSharers = st.globalSharers := by
    rcases hq' with h | h
    · rw [h]; exact hB1
    · rw [h]; exact ((wfa_fields cfg (p.1)).1).trans hB1
  have hcond : ¬ ((q.1).globalSharers (get_classification_index cfg
      (((p.1).cacheControl s).tag / (cfg.cacheline * cfg.pagesize) *
        (cfg.pagesize * cfg.cacheline)) + 1) = 2 ^ cfg.workrank ∨
      ((q.1).globalSharers (get_classification_index cfg
        (((p.1).cacheControl s).tag / (cfg.cacheline * cfg.pagesize) *
          (cfg.pagesize * cfg.cacheline)) + 1) = 0 ∧
       Nat.land ((q.1).globalSharers (get_classification_index cfg
        (((p.1).cacheControl s).tag / (cfg.cacheline * cfg.pagesize) *
          (cfg.pagesize * cfg.cacheline)))) (2 ^ cfg.workrank) =
         2 ^ cfg.workrank)) := by
    rw [hq1g, hB2 s]
    exact hkc
  rw [hinval hcond]
  refine ⟨?_, ?_, ?_, ?_, ?_⟩
  · dsimp only
    rw [fupd_self]
  · dsimp only
    rw [fupd_self]
  · dsimp only
    rw [fupd_self]
  · intro r hr
    dsimp only
    have hline : ((p.1).cacheControl s).tag / (cfg.cacheline * cfg.pagesize) *
        (cfg.pagesize * cfg.cacheline) = (st.cacheControl s).tag := by
      rw [hB2 s]
      exact line_div_eq cfg (st.cacheControl s).tag hP hK hcoh_s.1
    rw [hline]
    exact set_prot_in_range cfg (q.1).prot (st.cacheControl s).tag
      mem_prot.prot_none hP (dvd_trans (Dvd.intro _ rfl) hcoh_s.1)
      ((st.cacheControl s).tag / cfg.pagesize + r)
      (Nat.le_add_right _ _) (by omega)
  · intro hm h0
    dsimp only at h0
    rcases hq with ⟨h, hnf⟩ | ⟨h, _, _⟩
    · rw [h] at h0
      exact hnf ⟨h0, (hB4 h0).2 s hm⟩
    · rw [h] at h0
      dsimp only at h0
      omega

theorem foldl_pres {α β : Type} (f : β → α → β) (Q : β → Prop) :
    ∀ (l : List α) (b : β), Q b →
      (∀ x ∈ l, ∀ c, Q c → Q (f c x)) → Q (List.foldl f b l) := by
  intro l
  induction l with
  | nil =>
    intro b hb _
    exact hb
  | cons u rest ih =>
    intro b hb hstep
    rw [List.foldl_cons]
    exact ih (f b u) (hstep u (List.mem_cons_self _ _) b hb)
      (fun x hx c hc => hstep x (List.mem_cons_of_mem _ hx) c hc)

theorem slots_nodup (K n : Nat) (hK : 0 < K) :
    ((List.range n).map (· * K)).Nodup := by
  refine (List.nodup_range n).map ?_
  intro a b hab
  exact Nat.eq_of_mul_eq_mul_right hK hab

theorem slots_mem (K c s : Nat) (hK : 0 < K) (hKc : K ∣ c) (hs : s < c)
    (hsK : K ∣ s) : s ∈ (List.range ((c + K - 1) / K)).map (· * K) := by
  obtain ⟨m, rfl⟩ := hsK
  obtain ⟨d, rfl⟩ := hKc
  have hn : (K * d + K - 1) / K = d := by
    have h1 : K * d + K - 1 = (K - 1) + K * d := by omega
    rw [h1, Nat.add_mul_div_left _ _ hK, Nat.div_eq_of_lt (by omega)]
    omega
  rw [List.mem_map]
  refine ⟨m, ?_, mul_comm m K⟩
  rw [hn]
  exact List.mem_range.mpr (Nat.lt_of_mul_lt_mul_left hs)

theorem si_base_init (st : node_view)
    (hwb_dirty : ∀ j ∈ st.wb, (st.cacheControl j).dirty = DIRTY) :
    si_base st (st, 0) :=
  ⟨rfl, fun _ => rfl, fun _ h => h,
    fun _ => ⟨rfl, hwb_dirty⟩, fun h1 => absurd rfl h1⟩

theorem wb_add_apply_of_mem (cfg : node_config) (st : node_view) (v : Nat)
    (hv : v ∈ st.wb) : wb_add_apply cfg st v = st := by
  unfold wb_add_apply
  rw [if_pos hv]

theorem wb_add_apply_mem (cfg : node_config) (st : node_view) (v : Nat) :
    v ∈ (wb_add_apply cfg st v).wb := by
  unfold wb_add_apply
  split
  · assumption
  · dsimp only
    split
    · simp
    · simp

theorem wb_add_apply_frame (cfg : node_config) (st : node_view) (v : Nat)
    (hv : v ∉ st.wb) :
    (wb_add_apply cfg st v).touchedcache = st.touchedcache ∧
    (wb_add_apply cfg st v).pagecopy = st.pagecopy ∧
    (wb_add_apply cfg st v).realData = st.realData ∧
    (∀ j, j ∉ st.wb →
      (wb_add_apply cfg st v).cacheControl j = st.cacheControl j) := by
  unfold wb_add_apply
  rw [if_neg hv]
  dsimp only
  split
  · obtain ⟨ht, hp, hw, hr, hg, hcc⟩ := flush_fold_frame cfg
      ((wb_sort_first cfg.wb_write_back_size st.wb).take cfg.wb_write_back_size)
      st
    refine ⟨ht, hp, hr, ?_⟩
    intro j hj
    refine hcc j ?_
    intro hmem
    exact hj ((wb_sort_first_perm cfg.wb_write_back_size st.wb).mem_iff.1
      (List.mem_of_mem_take hmem))
  · exact ⟨rfl, rfl, rfl, fun j _ => rfl⟩

theorem handler_dir_update_frame (cfg : node_config) (st : node_view)
    (classidx homenode : Nat) :
    (handler_dir_update cfg st classidx homenode).cacheControl =
      st.cacheControl ∧
    (handler_dir_update cfg st classidx homenode).touchedcache =
      st.touchedcache ∧
    (handler_dir_update cfg st classidx homenode).pagecopy = st.pagecopy ∧
    (handler_dir_update cfg st classidx homenode).wb = st.wb ∧
    (handler_dir_update cfg st classidx homenode).prot = st.prot ∧
    (handler_dir_update cfg st classidx homenode).realData = st.realData := by
  unfold handler_dir_update
  dsimp only
  split_ifs <;> exact ⟨rfl, rfl, rfl, rfl, rfl, rfl⟩

theorem handler_upgrade_effects (cfg : node_config) (st : node_view)
    (aligned classidx sI homenode : Nat) (hP : 0 < cfg.pagesize)
    (haligP : cfg.pagesize ∣ aligned) :
    ((handler_upgrade cfg st aligned classidx sI sI homenode).cacheControl
      sI).dirty = DIRTY ∧
    (handler_upgrade cfg st aligned classidx sI sI homenode).touchedcache
      sI = 1 ∧
    sI ∈ (handler_upgrade cfg st aligned classidx sI sI homenode).wb ∧
    (∀ r, r < cfg.cacheline →
      (handler_upgrade cfg st aligned classidx sI sI homenode).prot
        (aligned / cfg.pagesize + r) = mem_prot.prot_read_write) ∧
    (∀ o, o < cfg.cacheline * cfg.pagesize →
      (handler_upgrade cfg st aligned classidx sI sI homenode).pagecopy
        (sI * cfg.pagesize + o) = st.realData (aligned + o)) := by
  unfold handler_upgrade
  dsimp only
  set st1 : node_view := { st with
    touchedcache := fupd st.touchedcache sI 1
    cacheControl := fupd st.cacheControl sI
      { st.cacheControl sI with dirty := DIRTY } } with hst1
  set st2 := handler_dir_update cfg st1 classidx homenode with hst2
  obtain ⟨hcc2, ht2, hpc2, hwb2, hpr2, hrd2⟩ :=
    handler_dir_update_frame cfg st1 classidx homenode
  set st3 : node_view := { st2 with
    pagecopy := twin_copy cfg st2.pagecopy st2.realData sI aligned } with hst3
  have hcc3 : st3.cacheControl = st1.cacheControl := hcc2
  have ht3 : st3.touchedcache = st1.touchedcache := ht2
  have hwb3 : st3.wb = st1.wb := hwb2
  have hrd3 : st3.realData = st1.realData := hrd2
  have hpc3 : st3.pagecopy = twin_copy cfg st2.pagecopy st2.realData sI aligned :=
    rfl
  have hcc1 : st1.cacheControl sI = { st.cacheControl sI with dirty := DIRTY } := by
    rw [hst1]
    show fupd st.cacheControl sI { st.cacheControl sI with dirty := DIRTY } sI = _
    unfold fupd
    rw [if_pos rfl]
  have ht1 : st1.touchedcache sI = 1 := by
    rw [hst1]
    show fupd st.touchedcache sI 1 sI = 1
    unfold fupd
    rw [if_pos rfl]
  have hcc4 : ((wb_add_apply cfg st3 sI).cacheControl sI).dirty = DIRTY := by
    by_cases hmem : sI ∈ st3.wb
    · rw [wb_add_apply_of_mem cfg st3 sI hmem, hcc3, hcc1]
    · obtain ⟨_, _, _, hcc⟩ := wb_add_apply_frame cfg st3 sI hmem
      rw [hcc sI hmem, hcc3, hcc1]
  have ht4 : (wb_add_apply cfg st3 sI).touchedcache sI = 1 := by
    by_cases hmem : sI ∈ st3.wb
    · rw [wb_add_apply_of_mem cfg st3 sI hmem, ht3, ht1]
    · obtain ⟨ht, _, _, _⟩ := wb_add_apply_frame cfg st3 sI hmem
      rw [ht, ht3, ht1]
  have hpc4 : ∀ o, o < cfg.cacheline * cfg.pagesize →
      (wb_add_apply cfg st3 sI).pagecopy (sI * cfg.pagesize + o) =
        st.realData (aligned + o) := by
    intro o ho
    have hval : st3.pagecopy (sI * cfg.pagesize + o) = st.realData (aligned + o) := by
      rw [hpc3]
      unfold twin_copy
      rw [if_pos (by omega)]
      rw [show sI * cfg.pagesize + o - sI * cfg.pagesize = o from by omega]
      rw [hrd2]
    by_cases hmem : sI ∈ st3.wb
    · rw [wb_add_apply_of_mem cfg st3 sI hmem]
      exact hval
    · obtain ⟨_, hp, _, _⟩ := wb_add_apply_frame cfg st3 sI hmem
      rw [hp]
      exact hval
  refine ⟨hcc4, ht4, wb_add_apply_mem cfg st3 sI, ?_, hpc4⟩
  intro r hr
  exact set_prot_in_range cfg _ aligned mem_prot.prot_read_write hP haligP _
    (by omega) (by omega)

/-- C9: on a cache hit (`state = VALID`, matching tag) of a line that is
already `DIRTY`, the remote-home fault handler returns with the node
state completely unchanged (no cache-line state, directory word, write
buffer, twin or protection update); on a clean hit it performs the write
upgrade: the line becomes dirty and touched, the slot joins the write
buffer, the line's pages are re-protected read/write, and the twin
receives a snapshot of the live line. -/
theorem c9_handler_dirty_hit (cfg : node_config)
    (loadFn : node_view → Nat → Nat → node_view) (st : node_view)
    (access_offset aligned sI : Nat)
    (haligned : aligned = align_backwards access_offset
      (cfg.cacheline * cfg.pagesize))
    (hsI : sI = getCacheIndex cfg aligned)
    (hP : 0 < cfg.pagesize) (_hK : 0 < cfg.cacheline)
    (hKc : cfg.cacheline ∣ cfg.cachesize)
    (hstate : (st.cacheControl sI).state = VALID)
    (htag : (st.cacheControl sI).tag = aligned) :
    ((st.cacheControl sI).dirty = DIRTY →
      handler_remote cfg loadFn st access_offset = st) ∧
    ((st.cacheControl sI).dirty ≠ DIRTY →
      ((handler_remote cfg loadFn st access_offset).cacheControl sI).dirty =
        DIRTY ∧
      (handler_remote cfg loadFn st access_offset).touchedcache sI = 1 ∧
      sI ∈ (handler_remote cfg loadFn st access_offset).wb ∧
      (∀ r, r < cfg.cacheline →
        (handler_remote cfg loadFn st access_offset).prot
          (aligned / cfg.pagesize + r) = mem_prot.prot_read_write) ∧
      (∀ o, o < cfg.cacheline * cfg.pagesize →
        (handler_remote cfg loadFn st access_offset).pagecopy
          (sI * cfg.pagesize + o) = st.realData (aligned + o))) := by
  have hmiss : ¬((st.cacheControl (getCacheIndex cfg (align_backwards
      access_offset (cfg.cacheline * cfg.pagesize)))).state = INVALID ∨
      ((st.cacheControl (getCacheIndex cfg (align_backwards access_offset
        (cfg.cacheline * cfg.pagesize)))).tag ≠ align_backwards access_offset
        (cfg.cacheline * cfg.pagesize) ∧
       (st.cacheControl (getCacheIndex cfg (align_backwards access_offset
        (cfg.cacheline * cfg.pagesize)))).tag ≠ cfg.size_of_all + 1)) := by
    rw [← haligned, ← hsI]
    rintro (h | ⟨h, _⟩)
    · rw [hstate] at h
      exact absurd h (by decide)
    · exact h htag
  have halq : aligned = access_offset / (cfg.cacheline * cfg.pagesize) *
      (cfg.cacheline * cfg.pagesize) := haligned
  have halP : cfg.pagesize ∣ aligned := by
    refine ⟨access_offset / (cfg.cacheline * cfg.pagesize) * cfg.cacheline, ?_⟩
    rw [halq]
    ring
  have halPdiv : cfg.cacheline ∣ aligned / cfg.pagesize := by
    rw [halq, show access_offset / (cfg.cacheline * cfg.pagesize) *
      (cfg.cacheline * cfg.pagesize) = access_offset /
        (cfg.cacheline * cfg.pagesize) * cfg.cacheline * cfg.pagesize from by
          ring]
    rw [Nat.mul_div_cancel _ hP]
    exact dvd_mul_left _ _
  have hKsI : cfg.cacheline ∣ sI := by
    rw [hsI]
    unfold getCacheIndex
    exact (Nat.dvd_mod_iff hKc).2 halPdiv
  have hline : sI / cfg.cacheline * cfg.cacheline = sI :=
    Nat.div_mul_cancel hKsI
  constructor
  · intro hdirty
    unfold handler_remote
    dsimp only
    rw [if_neg hmiss]
    rw [← haligned, ← hsI, hline, if_pos hdirty]
  · intro hnd
    unfold handler_remote
    dsimp only
    rw [if_neg hmiss]
    rw [← haligned, ← hsI, hline, if_neg hnd]
    exact handler_upgrade_effects cfg st aligned
      (get_classification_index cfg aligned) sI (getHomenode cfg aligned)
      hP halP

/-- C9 (witness): a concrete dirty hit — two-node configuration, slot 0
holds the line at offset 8192 in state `VALID`/`DIRTY`; the handler
returns the state unchanged. -/
theorem c9_handler_dirty_hit_witness :
    handler_remote ⟨4096, 1, 2, 4, 2, 0, 16384, 8192, 4, 2⟩ (fun s _ _ => s)
      ⟨fun _ => ⟨8192, VALID, DIRTY⟩, fun _ => 1, fun _ => 0, fun _ _ => 0,
        [0], fun _ => 0, fun _ => 0, fun _ _ => 0,
        fun _ => mem_prot.prot_read⟩ 8196 =
      ⟨fun _ => ⟨8192, VALID, DIRTY⟩, fun _ => 1, fun _ => 0, fun _ _ => 0,
        [0], fun _ => 0, fun _ => 0, fun _ _ => 0,
        fun _ => mem_prot.prot_read⟩ :=
  (c9_handler_dirty_hit ⟨4096, 1, 2, 4, 2, 0, 16384, 8192, 4, 2⟩
    (fun s _ _ => s)
    ⟨fun _ => ⟨8192, VALID, DIRTY⟩, fun _ => 1, fun _ => 0, fun _ _ => 0,
      [0], fun _ => 0, fun _ => 0, fun _ _ => 0,
      fun _ => mem_prot.prot_read⟩ 8196 8192 0 (by decide) (by decide)
    (by decide) (by decide) (by decide) rfl rfl).1 rfl

theorem wb_add_nodup (max_size wbsize : Nat) (buf : List Nat) (v : Nat)
    (h : buf.Nodup) : (wb_add max_size wbsize buf v).Nodup := by
  unfold wb_add
  split
  · exact h
  · rename_i hv
    dsimp only
    have happ : ∀ l : List Nat, l.Nodup → v ∉ l → (l ++ [v]).Nodup := by
      intro l hl hvl
      rw [List.nodup_append]
      refine ⟨hl, List.nodup_singleton v, ?_⟩
      intro a ha hb
      rw [List.mem_singleton] at hb
      rw [hb] at ha
      exact hvl ha
    split
    · have hperm := wb_sort_first_perm wbsize buf
      have hsorted : (wb_sort_first wbsize buf).Nodup := hperm.nodup_iff.2 h
      have hdrop : (wb_flush_first wbsize buf).Nodup :=
        hsorted.sublist (List.drop_sublist _ _)
      refine happ _ hdrop ?_
      intro hm
      exact hv (hperm.mem_iff.1 (List.mem_of_mem_drop hm))
    · exact happ _ h hv

theorem wb_step_nodup (max_size wbsize : Nat) (buf : List Nat) (op : wb_op)
    (h : buf.Nodup) : (wb_step max_size wbsize buf op).Nodup := by
  cases op with
  | add v => exact wb_add_nodup max_size wbsize buf v h
  | erase v => exact h.erase v
  | flush => exact List.nodup_nil

/-- C3: starting from the empty buffer, every write-buffer trace keeps
each slot index present at most once (`Nodup` at every point — every
prefix of a trace is itself a trace); `add` is a no-op when the value is
already present; and `add` on a full buffer first sorts the first
`_write_back_size` entries ascending, writes them back and pops them, and
only then enqueues the new value. -/
theorem c3_write_buffer_unique :
    (∀ (max_size wbsize : Nat) (ops : List wb_op),
      (wb_run max_size wbsize ops).Nodup) ∧
    (∀ (max_size wbsize : Nat) (buf : List Nat) (v : Nat), v ∈ buf →
      wb_add max_size wbsize buf v = buf) ∧
    (∀ (max_size wbsize : Nat) (buf : List Nat) (v : Nat), v ∉ buf →
      buf.length = max_size →
      wb_add max_size wbsize buf v = wb_flush_first wbsize buf ++ [v]) := by
  refine ⟨?_, ?_, ?_⟩
  · intro max_size wbsize ops
    unfold wb_run
    have hgen : ∀ (l : List wb_op) (buf : List Nat), buf.Nodup →
        (l.foldl (wb_step max_size wbsize) buf).Nodup := by
      intro l
      induction l with
      | nil => intro buf h; exact h
      | cons op rest ih =>
        intro buf h
        exact ih _ (wb_step_nodup max_size wbsize buf op h)
    exact hgen ops [] List.nodup_nil
  · intro max_size wbsize buf v hv
    unfold wb_add
    rw [if_pos hv]
  · intro max_size wbsize buf v hv hlen
    unfold wb_add
    rw [if_neg hv]
    dsimp only
    rw [if_pos (by omega)]

/-- C3 (witness): concrete trace and `add` evaluations — duplicates are
absorbed, and an `add` on a full two-element buffer flushes the smallest
entry first and then enqueues. -/
theorem c3_write_buffer_unique_witness :
    (wb_run 2 1 [wb_op.add 1, wb_op.add 1, wb_op.erase 1]).Nodup ∧
    wb_add 4 2 [3, 5] 3 = [3, 5] ∧
    wb_add 2 1 [2, 1] 0 = wb_flush_first 1 [2, 1] ++ [0] :=
  ⟨c3_write_buffer_unique.1 2 1 [wb_op.add 1, wb_op.add 1, wb_op.erase 1],
   c3_write_buffer_unique.2.1 4 2 [3, 5] 3 (by decide),
   c3_write_buffer_unique.2.2 2 1 [2, 1] 0 (by decide) rfl⟩

/-- C4 (counterexample): the claim asserts `0 ≤ offset_p(a) < G/N` for
every address `a < G` and every policy; but with `N = 2` nodes,
`G = 8192` bytes (a multiple of `P * N`) and the default allocation block
of 16 pages, the cyclic policy raises `offset_out_of_range` at address
`a = 4096 < G` instead of producing any offset: `pageblock = 65536`, so
the computed offset `4096` reaches `size_per_node = 4096`. -/
theorem c4_counterexample :
    (4096 : Nat) < (8192 : Nat) ∧
    cyclic_local_offset ⟨2, 8192, 16⟩ 4096 =
      Except.error dist_error.offset_out_of_range ∧
    ∀ v : Nat, cyclic_local_offset ⟨2, 8192, 16⟩ 4096 ≠ Except.ok v := by
  refine ⟨by omega, rfl, ?_⟩
  intro v h
  rw [show cyclic_local_offset ⟨2, 8192, 16⟩ 4096 =
      Except.error dist_error.offset_out_of_range from rfl] at h
  exact Except.noConfusion h

/-- C4 (amended): every home a distribution policy returns satisfies
`0 ≤ home < N` and every local offset it returns satisfies
`0 ≤ offset < G / N`; when the computed value would be out of range the
policy raises an error instead of returning it.  Moreover the naive
policy succeeds on every `a < G` whenever `N` divides `G`, and the
cyclic and skew-mapp policies succeed on every `a < G` whenever the band
size `B * N` divides `G`. -/
theorem c4_distribution_ranges :
    (∀ (cfg : dist_config) (dir : Nat → Nat) (a v : Nat),
      (naive_homenode cfg a = Except.ok v → v < cfg.nodes) ∧
      (naive_local_offset cfg a = Except.ok v → v < cfg.size_per_node) ∧
      (cyclic_homenode cfg a = Except.ok v → v < cfg.nodes) ∧
      (cyclic_local_offset cfg a = Except.ok v → v < cfg.size_per_node) ∧
      (skew_mapp_homenode cfg a = Except.ok v → v < cfg.nodes) ∧
      (skew_mapp_local_offset cfg a = Except.ok v → v < cfg.size_per_node) ∧
      (prime_mapp_homenode cfg a = Except.ok v → v < cfg.nodes) ∧
      (prime_mapp_local_offset cfg a = Except.ok v → v < cfg.size_per_node) ∧
      (first_touch_homenode cfg dir a = Except.ok v → v < cfg.nodes) ∧
      (first_touch_local_offset cfg dir a = Except.ok v →
        v < cfg.size_per_node)) ∧
    (∀ (cfg : dist_config) (a : Nat), 0 < cfg.nodes →
      cfg.nodes ∣ cfg.total_size → a < cfg.total_size →
      naive_homenode cfg a = Except.ok (a / cfg.size_per_node) ∧
      naive_local_offset cfg a = Except.ok (a % cfg.size_per_node)) ∧
    (∀ (cfg : dist_config) (a : Nat), 0 < cfg.nodes →
      0 < cfg.allocation_block_size →
      cfg.pageblock * cfg.nodes ∣ cfg.total_size → a < cfg.total_size →
      (∃ h, cyclic_homenode cfg a = Except.ok h) ∧
      (∃ o, cyclic_local_offset cfg a = Except.ok o) ∧
      (∃ h, skew_mapp_homenode cfg a = Except.ok h) ∧
      (∃ o, skew_mapp_local_offset cfg a = Except.ok o)) := by
  refine ⟨?_, ?_, ?_⟩
  · intro cfg dir a v
    refine ⟨?_, ?_, ?_, ?_, ?_, ?_, ?_, ?_, ?_, ?_⟩
    · intro h
      exact home_guard_ok h
    · intro h
      unfold naive_local_offset at h
      cases hh : naive_homenode cfg a with
      | error e =>
        rw [hh] at h
        exact Except.noConfusion h
      | ok x =>
        rw [hh] at h
        exact offset_guard_ok h
    · intro h
      exact home_guard_ok h
    · intro h
      exact offset_guard_ok h
    · intro h
      exact home_guard_ok h
    · intro h
      exact offset_guard_ok h
    · intro h
      exact home_guard_ok h
    · intro h
      unfold prime_mapp_local_offset at h
      cases hq : prime_mapp_pre cfg a with
      | error e =>
        rw [hq] at h
        exact Except.noConfusion h
      | ok x =>
        rw [hq] at h
        exact offset_guard_ok h
    · intro h
      exact home_guard_ok h
    · intro h
      exact offset_guard_ok h
  · intro cfg a hN hdvd ha
    have htot : cfg.size_per_node * cfg.nodes = cfg.total_size := by
      have := Nat.div_mul_cancel hdvd
      unfold dist_config.size_per_node
      omega
    have hspn : 0 < cfg.size_per_node := by
      rcases Nat.eq_zero_or_pos cfg.size_per_node with h | h
      · rw [h] at htot
        omega
      · exact h
    have hhome : a / cfg.size_per_node < cfg.nodes := by
      rw [Nat.div_lt_iff_lt_mul hspn]
      calc a < cfg.total_size := ha
        _ = cfg.nodes * cfg.size_per_node := by rw [← htot]; ring
    constructor
    · exact home_guard_lt hhome
    · unfold naive_local_offset
      rw [show naive_homenode cfg a = Except.ok (a / cfg.size_per_node) from
        home_guard_lt hhome]
      have hsub : a - a / cfg.size_per_node * cfg.size_per_node =
          a % cfg.size_per_node := by
        have h1 := Nat.div_add_mod a cfg.size_per_node
        have h2 : a / cfg.size_per_node * cfg.size_per_node =
            cfg.size_per_node * (a / cfg.size_per_node) := Nat.mul_comm _ _
        omega
      show offset_guard cfg (a - a / cfg.size_per_node * cfg.size_per_node) =
        Except.ok (a % cfg.size_per_node)
      rw [hsub]
      exact offset_guard_lt (Nat.mod_lt _ hspn)
  · intro cfg a hN hb hdvd ha
    have hg : 0 < granularity := by decide
    have hgB : granularity ∣ cfg.pageblock := dvd_mul_left _ _
    have hB : 0 < cfg.pageblock := by
      unfold dist_config.pageblock granularity
      positivity
    have hgle : granularity ≤ cfg.pageblock := by
      calc granularity = 1 * granularity := by ring
        _ ≤ cfg.allocation_block_size * granularity :=
          Nat.mul_le_mul_right _ hb
    obtain ⟨m, hm⟩ := hdvd
    have hspn : cfg.size_per_node = cfg.pageblock * m := by
      unfold dist_config.size_per_node
      rw [hm]
      have : cfg.pageblock * cfg.nodes * m = cfg.nodes * (cfg.pageblock * m) := by
        ring
      rw [this, Nat.mul_div_cancel_left _ hN]
    have hdiv : a / granularity * granularity / cfg.pageblock = a / cfg.pageblock :=
      rounded_div a granularity cfg.pageblock hg hgB
    have hmodadd : a / granularity * granularity % cfg.pageblock +
        a % granularity = a % cfg.pageblock :=
      rounded_mod_add a granularity cfg.pageblock hg hgB hgle
    have hofflt : a / cfg.pageblock / cfg.nodes * cfg.pageblock +
        a % cfg.pageblock < cfg.pageblock * m := by
      refine band_offset_lt a cfg.pageblock cfg.nodes m hB hN ?_
      rw [← hm]
      exact ha
    have hoffeq : ∀ x : Nat, x = a / granularity * granularity / cfg.pageblock →
        x / cfg.nodes * cfg.pageblock +
          a / granularity * granularity % cfg.pageblock + a % granularity =
        a / cfg.pageblock / cfg.nodes * cfg.pageblock + a % cfg.pageblock := by
      intro x hx
      rw [hx, hdiv, Nat.add_assoc, hmodadd]
    have hch : cyclic_homenode cfg a =
        Except.ok (a / granularity * granularity / cfg.pageblock % cfg.nodes) := by
      unfold cyclic_homenode
      dsimp only
      exact home_guard_lt (Nat.mod_lt _ hN)
    have hco : cyclic_local_offset cfg a = Except.ok
        (a / cfg.pageblock / cfg.nodes * cfg.pageblock + a % cfg.pageblock) := by
      unfold cyclic_local_offset
      dsimp only
      rw [hoffeq _ rfl]
      refine offset_guard_lt ?_
      rw [hspn]
      exact hofflt
    have hsh : skew_mapp_homenode cfg a = Except.ok
        ((a / granularity * granularity / cfg.pageblock +
          a / granularity * granularity / cfg.pageblock / cfg.nodes + 1) %
          cfg.nodes) := by
      unfold skew_mapp_homenode
      dsimp only
      exact home_guard_lt (Nat.mod_lt _ hN)
    have hso : skew_mapp_local_offset cfg a = Except.ok
        (a / cfg.pageblock / cfg.nodes * cfg.pageblock + a % cfg.pageblock) := by
      unfold skew_mapp_local_offset
      dsimp only
      rw [hoffeq _ rfl]
      refine offset_guard_lt ?_
      rw [hspn]
      exact hofflt
    exact ⟨⟨_, hch⟩, ⟨_, hco⟩, ⟨_, hsh⟩, ⟨_, hso⟩⟩

/-- C4 (witness): the success half instantiated for the naive policy on
`N = 2`, `G = 8192`, `a = 5000`, and the guard half at a concrete
successful cyclic lookup. -/
theorem c4_distribution_ranges_witness :
    (naive_homenode ⟨2, 8192, 16⟩ 5000 =
      Except.ok (5000 / dist_config.size_per_node ⟨2, 8192, 16⟩) ∧
     naive_local_offset ⟨2, 8192, 16⟩ 5000 =
      Except.ok (5000 % dist_config.size_per_node ⟨2, 8192, 16⟩)) :=
  (c4_distribution_ranges.2.1 ⟨2, 8192, 16⟩ 5000 (by decide) (by decide)
    (by decide))

/-- C7: with block size `B = pageblock = b * P`, the cyclic distribution
computes `home(a) = (a / B) mod N`, and its local offset — whenever one
is returned — equals `((a / B) / N) * B + (a mod B)`; that offset is
returned whenever it is below `G / N`. -/
theorem c7_cyclic_formulas (cfg : dist_config) (a : Nat)
    (hN : 0 < cfg.nodes) (hb : 0 < cfg.allocation_block_size) :
    cyclic_homenode cfg a = Except.ok (a / cfg.pageblock % cfg.nodes) ∧
    (∀ v, cyclic_local_offset cfg a = Except.ok v →
      v = a / cfg.pageblock / cfg.nodes * cfg.pageblock + a % cfg.pageblock) ∧
    (a / cfg.pageblock / cfg.nodes * cfg.pageblock + a % cfg.pageblock <
        cfg.size_per_node →
      cyclic_local_offset cfg a = Except.ok
        (a / cfg.pageblock / cfg.nodes * cfg.pageblock + a % cfg.pageblock)) := by
  have hg : 0 < granularity := by decide
  have hgB : granularity ∣ cfg.pageblock := dvd_mul_left _ _
  have hgle : granularity ≤ cfg.pageblock := by
    calc granularity = 1 * granularity := by ring
      _ ≤ cfg.allocation_block_size * granularity := Nat.mul_le_mul_right _ hb
  have hdiv : a / granularity * granularity / cfg.pageblock = a / cfg.pageblock :=
    rounded_div a granularity cfg.pageblock hg hgB
  have hmodadd : a / granularity * granularity % cfg.pageblock +
      a % granularity = a % cfg.pageblock :=
    rounded_mod_add a granularity cfg.pageblock hg hgB hgle
  have hval : a / granularity * granularity / cfg.pageblock / cfg.nodes *
        cfg.pageblock + a / granularity * granularity % cfg.pageblock +
        a % granularity =
      a / cfg.pageblock / cfg.nodes * cfg.pageblock + a % cfg.pageblock := by
    rw [hdiv, Nat.add_assoc, hmodadd]
  refine ⟨?_, ?_, ?_⟩
  · unfold cyclic_homenode
    dsimp only
    rw [hdiv]
    exact home_guard_lt (Nat.mod_lt _ hN)
  · intro v h
    unfold cyclic_local_offset at h
    dsimp only at h
    have := offset_guard_ok_eq h
    omega
  · intro hlt
    unfold cyclic_local_offset
    dsimp only
    rw [hval]
    exact offset_guard_lt hlt

/-- C7 (witness): the cyclic formulas evaluated at `N = 2`,
`G = 262144`, block size 16 pages (`B = 65536`), `a = 70000`. -/
theorem c7_cyclic_formulas_witness :
    cyclic_homenode ⟨2, 262144, 16⟩ 70000 = Except.ok 1 ∧
    cyclic_local_offset ⟨2, 262144, 16⟩ 70000 = Except.ok 4464 := by
  have h := c7_cyclic_formulas ⟨2, 262144, 16⟩ 70000 (by decide) (by decide)
  constructor
  · rw [h.1]
    rfl
  · rw [h.2.2 (by decide)]
    rfl

/-- C8: the integer and unsigned-integer MPI datatype selectors accept
exactly the operand sizes 1, 2, 4 and 8 bytes, and the floating-point
selector exactly 4, 8 and 16 bytes; every other size yields an
invalid-argument error value (a thrown `std::invalid_argument`, which
propagates to the calling API) rather than terminating the process. -/
theorem c8_atomic_operand_sizes : ∀ size : Nat,
    ((∃ t, fitting_mpi_int size = Except.ok t) ↔
      size = 1 ∨ size = 2 ∨ size = 4 ∨ size = 8) ∧
    ((∃ t, fitting_mpi_uint size = Except.ok t) ↔
      size = 1 ∨ size = 2 ∨ size = 4 ∨ size = 8) ∧
    ((∃ t, fitting_mpi_float size = Except.ok t) ↔
      size = 4 ∨ size = 8 ∨ size = 16) ∧
    (¬(size = 1 ∨ size = 2 ∨ size = 4 ∨ size = 8) →
      ∃ msg, fitting_mpi_int size = Except.error (cxx_error.invalid_argument msg) ∧
        fitting_mpi_uint size = Except.error (cxx_error.invalid_argument msg)) ∧
    (¬(size = 4 ∨ size = 8 ∨ size = 16) →
      ∃ msg, fitting_mpi_float size =
        Except.error (cxx_error.invalid_argument msg)) := by
  intro size
  unfold fitting_mpi_int fitting_mpi_uint fitting_mpi_float
  split_ifs <;> simp_all

/-- C8 (witness): size 3 is rejected by the integer selectors with an
invalid-argument error. -/
theorem c8_atomic_operand_sizes_witness :
    ∃ msg, fitting_mpi_int 3 = Except.error (cxx_error.invalid_argument msg) ∧
      fitting_mpi_uint 3 = Except.error (cxx_error.invalid_argument msg) :=
  (c8_atomic_operand_sizes 3).2.2.2.1 (by decide)

/-- C10: before `argo::env::init()` every environment accessor throws
`std::logic_error`; after `init()` each accessor returns the fixed parsed
value, and the write-back size is clamped to at most the write buffer
size. -/
theorem c10_env_accessors :
    (∀ st : env_state, st.is_initialized = false →
      env_memory_size st = Except.error (cxx_error.logic_error msg_uninitialized) ∧
      env_cache_size st = Except.error (cxx_error.logic_error msg_uninitialized) ∧
      env_write_buffer_size st =
        Except.error (cxx_error.logic_error msg_uninitialized) ∧
      env_write_buffer_write_back_size st =
        Except.error (cxx_error.logic_error msg_uninitialized) ∧
      env_allocation_policy st =
        Except.error (cxx_error.logic_error msg_uninitialized) ∧
      env_allocation_block_size st =
        Except.error (cxx_error.logic_error msg_uninitialized) ∧
      env_print_statistics st =
        Except.error (cxx_error.logic_error msg_uninitialized)) ∧
    (∀ m c wb wbwb ap abs ps : Option Nat,
      env_memory_size (env_init m c wb wbwb ap abs ps) =
        Except.ok (parse_env m default_memory_size) ∧
      env_cache_size (env_init m c wb wbwb ap abs ps) =
        Except.ok (parse_env c default_cache_size) ∧
      env_write_buffer_size (env_init m c wb wbwb ap abs ps) =
        Except.ok (parse_env wb default_write_buffer_size) ∧
      env_allocation_policy (env_init m c wb wbwb ap abs ps) =
        Except.ok (parse_env ap default_allocation_policy) ∧
      env_allocation_block_size (env_init m c wb wbwb ap abs ps) =
        Except.ok (parse_env abs default_allocation_block_size) ∧
      env_print_statistics (env_init m c wb wbwb ap abs ps) =
        Except.ok (parse_env ps 0) ∧
      ∃ v, env_write_buffer_write_back_size (env_init m c wb wbwb ap abs ps) =
          Except.ok v ∧ v ≤ parse_env wb default_write_buffer_size) := by
  constructor
  · intro st h
    refine ⟨?_, ?_, ?_, ?_, ?_, ?_, ?_⟩ <;>
      simp [env_memory_size, env_cache_size, env_write_buffer_size,
        env_write_buffer_write_back_size, env_allocation_policy,
        env_allocation_block_size, env_print_statistics,
        assert_initialized, h, Bind.bind, Except.bind]
  · intro m c wb wbwb ap abs ps
    refine ⟨rfl, rfl, rfl, rfl, rfl, rfl, ?_⟩
    refine ⟨_, rfl, ?_⟩
    unfold env_init
    dsimp only
    split <;> omega

/-- C10 (witness): with no environment variables set, every accessor
errors before init, and after init the write-back size (32) is at most the
write buffer size (512). -/
theorem c10_env_accessors_witness :
    env_memory_size (env_state_uninit ⟨0, 0, 0, 0, 0, 0, 0⟩) =
      Except.error (cxx_error.logic_error msg_uninitialized) ∧
    ∃ v, env_write_buffer_write_back_size
        (env_init none none none none none none none) = Except.ok v ∧
      v ≤ parse_env none default_write_buffer_size :=
  ⟨(c10_env_accessors.1 (env_state_uninit ⟨0, 0, 0, 0, 0, 0, 0⟩) rfl).1,
   (c10_env_accessors.2 none none none none none none none).2.2.2.2.2.2⟩

theorem diff_loop_mem (real copy : Nat → Nat) (offset : Nat) :
    ∀ (steps i cnt s l : Nat), cnt ≤ i →
      (∀ j, i - cnt ≤ j → j < i → real j ≠ copy j) →
      (i = cnt ∨ real (i - cnt - 1) = copy (i - cnt - 1)) →
      (({ target := offset + s, len := l } : put_op) ∈
          diff_loop real copy offset steps i cnt ↔
        (i - cnt ≤ s ∧ is_maximal_run real copy (i + steps) s l)) := by
  intro steps
  induction steps with
  | zero =>
    intro i cnt s l hci h1 h2
    by_cases hc : 0 < cnt
    · rw [show diff_loop real copy offset 0 i cnt =
        [{ target := offset + (i - cnt), len := cnt }] from by
          simp only [diff_loop, if_pos hc]]
      simp only [List.mem_singleton, put_op.mk.injEq]
      unfold is_maximal_run
      constructor
      · rintro ⟨hts, htl⟩
        have hs : s = i - cnt := by omega
        subst htl
        refine ⟨by omega, hc, by omega, ?_, ?_, ?_⟩
        · intro j hj1 hj2
          exact h1 j (by omega) (by omega)
        · rcases h2 with h | h
          · left; omega
          · right; rw [hs]; exact h
        · left; omega
      · rintro ⟨his, hl, hsl, hint, hleft, hright⟩
        have hsli : s + l = i := by
          rcases hright with h | h
          · omega
          · by_contra hne
            exact absurd h (h1 (s + l) (by omega) (by omega))
        have hsi : s = i - cnt := by
          by_contra hne
          have hgt : i - cnt < s := by omega
          rcases hleft with h | h
          · omega
          · exact absurd h (h1 (s - 1) (by omega) (by omega))
        exact ⟨by omega, by omega⟩
    · rw [show diff_loop real copy offset 0 i cnt = [] from by
        simp only [diff_loop, if_neg hc]]
      simp only [List.not_mem_nil, false_iff]
      rintro ⟨his, hl, hsl, _⟩
      omega
  | succ steps ih =>
    intro i cnt s l hci h1 h2
    by_cases hd : real i ≠ copy i
    · rw [show diff_loop real copy offset (steps + 1) i cnt =
        diff_loop real copy offset steps (i + 1) (cnt + 1) from by
          simp only [diff_loop, if_pos hd]]
      have h1x : ∀ j, (i + 1) - (cnt + 1) ≤ j → j < i + 1 → real j ≠ copy j := by
        intro j hj1 hj2
        rcases Nat.lt_or_ge j i with h | h
        · exact h1 j (by omega) h
        · have hji : j = i := by omega
          rw [hji]
          exact hd
      have h2x : i + 1 = cnt + 1 ∨
          real ((i + 1) - (cnt + 1) - 1) = copy ((i + 1) - (cnt + 1) - 1) := by
        rcases h2 with h | h
        · left; omega
        · right
          rw [show (i + 1) - (cnt + 1) - 1 = i - cnt - 1 from by omega]
          exact h
      rw [ih (i + 1) (cnt + 1) s l (by omega) h1x h2x]
      rw [show (i + 1) - (cnt + 1) = i - cnt from by omega,
        show i + 1 + steps = i + (steps + 1) from by omega]
    · push_neg at hd
      have h1x : ∀ j, (i + 1) - 0 ≤ j → j < i + 1 → real j ≠ copy j := by
        intro j hj1 hj2
        exact absurd hj2 (by omega)
      have h2x : i + 1 = 0 ∨
          real ((i + 1) - 0 - 1) = copy ((i + 1) - 0 - 1) := by
        right
        rw [show (i + 1) - 0 - 1 = i from by omega]
        exact hd
      by_cases hc : 0 < cnt
      · rw [show diff_loop real copy offset (steps + 1) i cnt =
          { target := offset + (i - cnt), len := cnt } ::
            diff_loop real copy offset steps (i + 1) 0 from by
            simp only [diff_loop, if_neg (not_not_intro hd), if_pos hc]]
        rw [List.mem_cons]
        rw [ih (i + 1) 0 s l (by omega) h1x h2x]
        simp only [put_op.mk.injEq]
        constructor
        · rintro (⟨hts, htl⟩ | ⟨hs1, hmax⟩)
          · have hs : s = i - cnt := by omega
            refine ⟨by omega, by omega, by omega, ?_, ?_, ?_⟩
            · intro j hj1 hj2
              exact h1 j (by omega) (by omega)
            · rcases h2 with h | h
              · left; omega
              · right; rw [hs]; exact h
            · right
              rw [show s + l = i from by omega]
              exact hd
          · refine ⟨by omega, ?_⟩
            rw [show i + (steps + 1) = i + 1 + steps from by omega]
            exact hmax
        · rintro ⟨his, hmax⟩
          obtain ⟨hl, hsl, hint, hleft, hright⟩ := hmax
          rcases Nat.lt_or_ge i s with hgt | hle
          · right
            refine ⟨by omega, hl, by omega, hint, hleft, ?_⟩
            rcases hright with h | h
            · left; omega
            · right; exact h
          · left
            have hsli : s + l ≤ i := by
              by_contra hne
              push_neg at hne
              exact absurd hd (hint i (by omega) (by omega))
            have hsli2 : s + l = i := by
              rcases hright with h | h
              · omega
              · by_contra hne
                exact absurd h (h1 (s + l) (by omega) (by omega))
            have hsi : s = i - cnt := by
              by_contra hne
              have hgt2 : i - cnt < s := by omega
              rcases hleft with h | h
              · omega
              · exact absurd h (h1 (s - 1) (by omega) (by omega))
            exact ⟨by omega, by omega⟩
      · rw [show diff_loop real copy offset (steps + 1) i cnt =
          diff_loop real copy offset steps (i + 1) 0 from by
            simp only [diff_loop, if_neg (not_not_intro hd), if_neg hc]]
        rw [ih (i + 1) 0 s l (by omega) h1x h2x]
        constructor
        · rintro ⟨hs1, hmax⟩
          refine ⟨by omega, ?_⟩
          rw [show i + (steps + 1) = i + 1 + steps from by omega]
          exact hmax
        · rintro ⟨his, hmax⟩
          have hne : s ≠ i := by
            intro he
            obtain ⟨hl, hsl, hint, _, _⟩ := hmax
            exact absurd hd (hint i (by omega) (by omega))
          refine ⟨by omega, ?_⟩
          rw [show i + 1 + steps = i + (steps + 1) from by omega]
          exact hmax

theorem diff_loop_count (real copy : Nat → Nat) (offset : Nat) :
    ∀ (steps i cnt s l : Nat), cnt ≤ i →
      (∀ j, i - cnt ≤ j → j < i → real j ≠ copy j) →
      (i = cnt ∨ real (i - cnt - 1) = copy (i - cnt - 1)) →
      i - cnt ≤ s → is_maximal_run real copy (i + steps) s l →
      (diff_loop real copy offset steps i cnt).count
        { target := offset + s, len := l } = 1 := by
  intro steps
  induction steps with
  | zero =>
    intro i cnt s l hci h1 h2 hs hmax
    have hmem := (diff_loop_mem real copy offset 0 i cnt s l hci h1 h2).2
      ⟨hs, hmax⟩
    by_cases hc : 0 < cnt
    · rw [show diff_loop real copy offset 0 i cnt =
        [{ target := offset + (i - cnt), len := cnt }] from by
          simp only [diff_loop, if_pos hc]] at hmem ⊢
      simp only [List.mem_singleton] at hmem
      rw [hmem]
      simp
    · rw [show diff_loop real copy offset 0 i cnt = [] from by
        simp only [diff_loop, if_neg hc]] at hmem
      exact absurd hmem (List.not_mem_nil _)
  | succ steps ih =>
    intro i cnt s l hci h1 h2 hs hmax
    by_cases hd : real i ≠ copy i
    · rw [show diff_loop real copy offset (steps + 1) i cnt =
        diff_loop real copy offset steps (i + 1) (cnt + 1) from by
          simp only [diff_loop, if_pos hd]]
      have h1x : ∀ j, (i + 1) - (cnt + 1) ≤ j → j < i + 1 → real j ≠ copy j := by
        intro j hj1 hj2
        rcases Nat.lt_or_ge j i with h | h
        · exact h1 j (by omega) h
        · have hji : j = i := by omega
          rw [hji]
          exact hd
      have h2x : i + 1 = cnt + 1 ∨
          real ((i + 1) - (cnt + 1) - 1) = copy ((i + 1) - (cnt + 1) - 1) := by
        rcases h2 with h | h
        · left; omega
        · right
          rw [show (i + 1) - (cnt + 1) - 1 = i - cnt - 1 from by omega]
          exact h
      refine ih (i + 1) (cnt + 1) s l (by omega) h1x h2x (by omega) ?_
      rw [show i + 1 + steps = i + (steps + 1) from by omega]
      exact hmax
    · push_neg at hd
      have h1x : ∀ j, (i + 1) - 0 ≤ j → j < i + 1 → real j ≠ copy j := by
        intro j hj1 hj2
        exact absurd hj2 (by omega)
      have h2x : i + 1 = 0 ∨
          real ((i + 1) - 0 - 1) = copy ((i + 1) - 0 - 1) := by
        right
        rw [show (i + 1) - 0 - 1 = i from by omega]
        exact hd
      obtain ⟨hl, hsl, hint, hleft, hright⟩ := hmax
      by_cases hle : s ≤ i
      · have hsli : s + l ≤ i := by
          by_contra hne
          push_neg at hne
          exact absurd hd (hint i (by omega) (by omega))
        have hsli2 : s + l = i := by
          rcases hright with h | h
          · omega
          · by_contra hne
            exact absurd h (h1 (s + l) (by omega) (by omega))
        have hsi : s = i - cnt := by
          by_contra hne
          have hgt2 : i - cnt < s := by omega
          rcases hleft with h | h
          · omega
          · exact absurd h (h1 (s - 1) (by omega) (by omega))
        have hc : 0 < cnt := by omega
        rw [show diff_loop real copy offset (steps + 1) i cnt =
          { target := offset + (i - cnt), len := cnt } ::
            diff_loop real copy offset steps (i + 1) 0 from by
            simp only [diff_loop, if_neg (not_not_intro hd), if_pos hc]]
        have hnotmem : ({ target := offset + s, len := l } : put_op) ∉
            diff_loop real copy offset steps (i + 1) 0 := by
          rw [diff_loop_mem real copy offset steps (i + 1) 0 s l (by omega)
            h1x h2x]
          rintro ⟨habs, _⟩
          omega
        rw [List.count_cons]
        rw [List.count_eq_zero.2 hnotmem]
        have heq : ({ target := offset + s, len := l } : put_op) =
            { target := offset + (i - cnt), len := cnt } := by
          rw [put_op.mk.injEq]
          constructor <;> omega
        simp [heq]
      · push_neg at hle
        have htail : (diff_loop real copy offset steps (i + 1) 0).count
            { target := offset + s, len := l } = 1 := by
          refine ih (i + 1) 0 s l (by omega) h1x h2x (by omega) ?_
          rw [show i + 1 + steps = i + (steps + 1) from by omega]
          exact ⟨hl, hsl, hint, hleft, hright⟩
        have hne : ¬({ target := offset + s, len := l } : put_op) =
            { target := offset + (i - cnt), len := cnt } := by
          rw [put_op.mk.injEq]
          rintro ⟨habs, _⟩
          omega
        by_cases hc : 0 < cnt
        · rw [show diff_loop real copy offset (steps + 1) i cnt =
            { target := offset + (i - cnt), len := cnt } ::
              diff_loop real copy offset steps (i + 1) 0 from by
              simp only [diff_loop, if_neg (not_not_intro hd), if_pos hc]]
          rw [List.count_cons_of_ne hne]
          exact htail
        · rw [show diff_loop real copy offset (steps + 1) i cnt =
            diff_loop real copy offset steps (i + 1) 0 from by
              simp only [diff_loop, if_neg (not_not_intro hd), if_neg hc]]
          exact htail

theorem diff_loop_target_le (real copy : Nat → Nat) (offset : Nat) :
    ∀ (steps i cnt : Nat) (p : put_op),
      p ∈ diff_loop real copy offset steps i cnt → offset ≤ p.target := by
  intro steps
  induction steps with
  | zero =>
    intro i cnt p hp
    by_cases hc : 0 < cnt
    · rw [show diff_loop real copy offset 0 i cnt =
        [{ target := offset + (i - cnt), len := cnt }] from by
          simp only [diff_loop, if_pos hc]] at hp
      simp only [List.mem_singleton] at hp
      rw [hp]
      simp
    · rw [show diff_loop real copy offset 0 i cnt = [] from by
        simp only [diff_loop, if_neg hc]] at hp
      exact absurd hp (List.not_mem_nil _)
  | succ steps ih =>
    intro i cnt p hp
    by_cases hd : real i ≠ copy i
    · rw [show diff_loop real copy offset (steps + 1) i cnt =
        diff_loop real copy offset steps (i + 1) (cnt + 1) from by
          simp only [diff_loop, if_pos hd]] at hp
      exact ih _ _ _ hp
    · by_cases hc : 0 < cnt
      · rw [show diff_loop real copy offset (steps + 1) i cnt =
          { target := offset + (i - cnt), len := cnt } ::
            diff_loop real copy offset steps (i + 1) 0 from by
            simp only [diff_loop, if_neg hd, if_pos hc]] at hp
        rcases List.mem_cons.1 hp with h | h
        · rw [h]
          simp
        · exact ih _ _ _ h
      · rw [show diff_loop real copy offset (steps + 1) i cnt =
          diff_loop real copy offset steps (i + 1) 0 from by
            simp only [diff_loop, if_neg hd, if_neg hc]] at hp
        exact ih _ _ _ hp

/-- C2: the puts emitted by the `storepageDIFF` byte-diff loop are exactly
the maximal contiguous runs of bytes differing from the twin — one put
per run, at window offset `offset + run_start` — and every byte inside an
emitted put differs from the twin (bytes equal to the twin are never
written back). -/
theorem c2_storepageDIFF_runs (real copy : Nat → Nat) (pagesize offset : Nat) :
    (∀ s l, ({ target := offset + s, len := l } : put_op) ∈
        storepageDIFF_puts real copy pagesize offset ↔
      is_maximal_run real copy pagesize s l) ∧
    (∀ s l, is_maximal_run real copy pagesize s l →
      (storepageDIFF_puts real copy pagesize offset).count
        { target := offset + s, len := l } = 1) ∧
    (∀ p ∈ storepageDIFF_puts real copy pagesize offset,
      ∀ j, j < p.len →
        real (p.target - offset + j) ≠ copy (p.target - offset + j)) := by
  have hmem : ∀ s l, ({ target := offset + s, len := l } : put_op) ∈
      storepageDIFF_puts real copy pagesize offset ↔
        is_maximal_run real copy pagesize s l := by
    intro s l
    unfold storepageDIFF_puts
    rw [diff_loop_mem real copy offset pagesize 0 0 s l (by omega)
      (by intro j hj1 hj2; exact absurd hj2 (by omega)) (by left; rfl)]
    constructor
    · rintro ⟨_, h⟩
      rw [show (0 : Nat) + pagesize = pagesize from by omega] at h
      exact h
    · intro h
      refine ⟨by omega, ?_⟩
      rw [show (0 : Nat) + pagesize = pagesize from by omega]
      exact h
  refine ⟨hmem, ?_, ?_⟩
  · intro s l hrun
    unfold storepageDIFF_puts
    refine diff_loop_count real copy offset pagesize 0 0 s l (by omega)
      (by intro j hj1 hj2; exact absurd hj2 (by omega)) (by left; rfl)
      (by omega) ?_
    rw [show (0 : Nat) + pagesize = pagesize from by omega]
    exact hrun
  · intro p hp j hj
    have hle : offset ≤ p.target :=
      diff_loop_target_le real copy offset pagesize 0 0 p hp
    have hpe : p = { target := offset + (p.target - offset), len := p.len } := by
      cases p with
      | mk t ln =>
        have hle2 : offset ≤ t := hle
        show put_op.mk t ln = { target := offset + (t - offset), len := ln }
        rw [show offset + (t - offset) = t from by omega]
    rw [hpe] at hp
    have hrun := (hmem (p.target - offset) p.len).1 hp
    obtain ⟨_, _, hint, _, _⟩ := hrun
    exact hint (p.target - offset + j) (by omega) (by omega)

/-- C2 (witness): on a 2-byte page with live bytes `j` and twin bytes 0
the single maximal run is `[1, 2)`; it is emitted exactly once at window
offset `7 + 1`. -/
theorem c2_storepageDIFF_runs_witness :
    (({ target := 7 + 1, len := 1 } : put_op) ∈
      storepageDIFF_puts (fun j => j) (fun _ => 0) 2 7) ∧
    (storepageDIFF_puts (fun j => j) (fun _ => 0) 2 7).count
      { target := 7 + 1, len := 1 } = 1 :=
  ⟨((c2_storepageDIFF_runs (fun j => j) (fun _ => 0) 2 7).1 1 1).2 (by decide),
   (c2_storepageDIFF_runs (fun j => j) (fun _ => 0) 2 7).2.1 1 1 (by decide)⟩

/-- C5: `try_lock` always exchanges the lock word with the `LOCKED`
sentinel; if the previous value was the caller's own node id or the
initial sentinel it succeeds with only a node-local acquire fence; if it
was any other value but `LOCKED` it succeeds after a full global acquire;
if it was `LOCKED` it fails.  `unlock` performs a global release and then
stores the caller's node id. -/
theorem c5_global_tas_lock (self : Nat) (st : tas_state)
    (hself : self < tas_init) :
    ((global_tas_try_lock self st).2.1 = { word := tas_locked }) ∧
    (st.word = self ∨ st.word = tas_init →
      global_tas_try_lock self st =
        (true, { word := tas_locked }, [sync_event.local_acquire_fence])) ∧
    (st.word ≠ self → st.word ≠ tas_init → st.word ≠ tas_locked →
      global_tas_try_lock self st =
        (true, { word := tas_locked }, [sync_event.global_acquire])) ∧
    (st.word = tas_locked →
      global_tas_try_lock self st = (false, { word := tas_locked }, [])) ∧
    (global_tas_unlock self st =
      ({ word := self }, [sync_event.global_release,
        sync_event.word_store self])) := by
  have hlt : tas_init < tas_locked := by unfold tas_init tas_locked; omega
  refine ⟨?_, ?_, ?_, ?_, rfl⟩ <;>
    · intros
      unfold global_tas_try_lock
      dsimp only
      split_ifs <;> simp_all <;> omega

/-- C5 (witness): node 0 taking a freshly constructed lock succeeds with
only the local acquire fence. -/
theorem c5_global_tas_lock_witness :
    global_tas_try_lock 0 global_tas_new =
      (true, { word := tas_locked }, [sync_event.local_acquire_fence]) :=
  (c5_global_tas_lock 0 global_tas_new
    (by unfold tas_init; omega)).2.1 (Or.inr rfl)


/-- C1 (counterexample): the claim says that when the keep condition
holds (writers = {self}, or writers = ∅ and self ∈ sharers) the
self-invalidation pass keeps the line *unchanged*.  In this concrete
state slot 0 is touched, holds the line at address 0 with the node as
its single writer (keep condition), is marked `DIRTY` and sits in the
write buffer: the pass keeps the line resident, but the write-buffer
flush performed inside the pass writes the line back and downgrades its
dirty flag to `CLEAN`, so the line is not unchanged. -/
theorem c1_counterexample :
    si_keep_cond c1cfg c1st 0 ∧
    c1st.touchedcache 0 = 1 ∧
    (c1st.cacheControl 0).dirty = DIRTY ∧
    ((self_invalidation c1cfg c1st).cacheControl 0).dirty = CLEAN := by
  refine ⟨?_, rfl, rfl, ?_⟩
  · unfold si_keep_cond
    left
    decide
  · decide

/-- C1 (amended): for every line-start slot `s` (`CACHELINE ∣ s`,
`s < cachesize`) with `touched = 1`, under the cache-coherence
invariants (the tag of `s`, of every touched slot and of every
write-buffer member is line-aligned and maps back to its slot, and
write-buffer members are dirty): the pass never changes the tag of `s`;
if the directory pair of the slot's line shows writers = {self}, or
writers = ∅ and self ∈ sharers, the pass keeps the line resident —
state, tag and touched (= 1) unchanged — though a dirty line may first
be written back by the write-buffer flush run inside the pass, leaving
`dirty = CLEAN`; in every other case it sets `state = INVALID`,
`dirty = CLEAN`, `touched = 0` and removes the protection of all the
line's pages (`PROT_NONE`). -/
theorem c1_self_invalidation (cfg : node_config) (st : node_view) (s : Nat)
    (hP : 0 < cfg.pagesize) (hK : 0 < cfg.cacheline)
    (hKc : cfg.cacheline ∣ cfg.cachesize)
    (hs : s < cfg.cachesize) (hsK : cfg.cacheline ∣ s)
    (htouch : st.touchedcache s = 1)
    (hcoh_s : slot_coherent cfg st s)
    (hwb_coh : ∀ j ∈ st.wb, slot_coherent cfg st j)
    (hwb_dirty : ∀ j ∈ st.wb, (st.cacheControl j).dirty = DIRTY) :
    ((self_invalidation cfg st).cacheControl s).tag =
      (st.cacheControl s).tag ∧
    (si_keep_cond cfg st s →
      ((self_invalidation cfg st).cacheControl s).state =
          (st.cacheControl s).state ∧
        (self_invalidation cfg st).touchedcache s = 1 ∧
        (((self_invalidation cfg st).cacheControl s).dirty =
            (st.cacheControl s).dirty ∨
          ((self_invalidation cfg st).cacheControl s).dirty = CLEAN)) ∧
    (¬ si_keep_cond cfg st s →
      ((self_invalidation cfg st).cacheControl s).state = INVALID ∧
        ((self_invalidation cfg st).cacheControl s).dirty = CLEAN ∧
        (self_invalidation cfg st).touchedcache s = 0 ∧
        ∀ r, r < cfg.cacheline →
          (self_invalidation cfg st).prot
            ((st.cacheControl s).tag / cfg.pagesize + r) =
            mem_prot.prot_none) := by
  have hmem : s ∈ (List.range ((cfg.cachesize + cfg.cacheline - 1) /
      cfg.cacheline)).map (· * cfg.cacheline) :=
    slots_mem cfg.cacheline cfg.cachesize s hK hKc hs hsK
  obtain ⟨L1, L2, hsplit⟩ := List.append_of_mem hmem
  have hnd : (L1 ++ s :: L2).Nodup := by
    rw [← hsplit]
    exact slots_nodup cfg.cacheline _ hK
  obtain ⟨hnd1, hnd2, hdisj⟩ := List.nodup_append.mp hnd
  obtain ⟨hsL2, _⟩ := List.nodup_cons.mp hnd2
  have hL1ne : ∀ x ∈ L1, x ≠ s := fun x hx he =>
    hdisj (he ▸ hx) (List.mem_cons_self _ _)
  have hL2ne : ∀ x ∈ L2, x ≠ s := fun x hx he => hsL2 (he ▸ hx)
  have hfold : self_invalidation cfg st =
      (List.foldl (self_inv_slot cfg)
        (self_inv_slot cfg
          (List.foldl (self_inv_slot cfg) (st, 0) L1) s) L2).1 := by
    unfold self_invalidation
    dsimp only
    rw [hsplit, List.foldl_append, List.foldl_cons]
  have hbase1 : si_base st (List.foldl (self_inv_slot cfg) (st, 0) L1) ∧
      si_pre_track st s (List.foldl (self_inv_slot cfg) (st, 0) L1) := by
    refine foldl_pres (self_inv_slot cfg)
      (fun p => si_base st p ∧ si_pre_track st s p) L1 (st, 0)
      ⟨si_base_init st hwb_dirty, Or.inl rfl, rfl⟩ ?_
    intro x hx c hc
    exact ⟨si_base_step cfg st c x hc.1,
      si_pre_step cfg st c s x (hL1ne x hx) hc.2⟩
  refine ⟨?_, ?_, ?_⟩
  · have hb : si_base st (List.foldl (self_inv_slot cfg)
        (self_inv_slot cfg (List.foldl (self_inv_slot cfg) (st, 0) L1) s)
        L2) :=
      foldl_pres (self_inv_slot cfg) (fun p => si_base st p) L2 _
        (si_base_step cfg st _ s hbase1.1)
        (fun x _ c hc => si_base_step cfg st c x hc)
    obtain ⟨_, htags, _, _, _⟩ := hb
    rw [hfold]
    exact htags s
  · intro hkc
    have h3 := foldl_pres (self_inv_slot cfg)
      (fun p => si_base st p ∧ si_keep_track st s p) L2
      (self_inv_slot cfg (List.foldl (self_inv_slot cfg) (st, 0) L1) s)
      ⟨si_base_step cfg st _ s hbase1.1,
       si_keep_establish cfg st _ s hbase1.1 hbase1.2 htouch hkc⟩
      (fun x hx c hc => ⟨si_base_step cfg st c x hc.1,
        si_keep_post_step cfg st c s x (hL2ne x hx) hc.2⟩)
    obtain ⟨_, hk1, hk2, hk3⟩ := h3
    rw [hfold]
    exact ⟨hk1, hk2, hk3⟩
  · intro hkc
    have h3 := foldl_pres (self_inv_slot cfg)
      (fun p => si_base st p ∧ si_inval_track cfg st s p) L2
      (self_inv_slot cfg (List.foldl (self_inv_slot cfg) (st, 0) L1) s)
      ⟨si_base_step cfg st _ s hbase1.1,
       si_inval_establish cfg st _ s hP hK hbase1.1 hbase1.2 htouch
         hcoh_s hkc⟩
      (fun x hx c hc => ⟨si_base_step cfg st c x hc.1,
        si_inval_post_step cfg st c s x hP hK (hL2ne x hx) hc.1 hcoh_s
          hwb_coh hc.2⟩)
    obtain ⟨_, hi1, hi2, hi3, hi4, _⟩ := h3
    rw [hfold]
    exact ⟨hi1, hi2, hi3, fun r hr => hi4 r hr⟩

/-- C1 (witness): the amended theorem applied to the concrete one-node
configuration and state of the counterexample (slot 0 touched, line at
address 0, single writer, dirty, buffered). -/
theorem c1_self_invalidation_witness :
    ((self_invalidation c1cfg c1st).cacheControl 0).tag =
      (c1st.cacheControl 0).tag ∧
    (si_keep_cond c1cfg c1st 0 →
      ((self_invalidation c1cfg c1st).cacheControl 0).state =
          (c1st.cacheControl 0).state ∧
        (self_invalidation c1cfg c1st).touchedcache 0 = 1 ∧
        (((self_invalidation c1cfg c1st).cacheControl 0).dirty =
            (c1st.cacheControl 0).dirty ∨
          ((self_invalidation c1cfg c1st).cacheControl 0).dirty = CLEAN)) ∧
    (¬ si_keep_cond c1cfg c1st 0 →
      ((self_invalidation c1cfg c1st).cacheControl 0).state = INVALID ∧
        ((self_invalidation c1cfg c1st).cacheControl 0).dirty = CLEAN ∧
        (self_invalidation c1cfg c1st).touchedcache 0 = 0 ∧
        ∀ r, r < c1cfg.cacheline →
          (self_invalidation c1cfg c1st).prot
            ((c1st.cacheControl 0).tag / c1cfg.pagesize + r) =
            mem_prot.prot_none) :=
  c1_self_invalidation c1cfg c1st 0 (by decide) (by decide) (by decide)
    (by decide) (by decide) rfl ⟨⟨0, rfl⟩, rfl⟩
    (by
      intro j hj
      have hj' : j ∈ [0] := hj
      rw [List.mem_singleton] at hj'
      subst hj'
      exact ⟨⟨0, rfl⟩, rfl⟩)
    (by
      intro j hj
      have hj' : j ∈ [0] := hj
      rw [List.mem_singleton] at hj'
      subst hj'
      rfl)

end ArgoDSM